import Mathlib

/-!
Verification of the mcp-tool-chainer server (the fastmcp rewrite under
`src/`): the chain executor (`chain-executor.mjs`), the line-delimited
JSON-RPC transport and tool registry (`mcp-client-manager.mjs`), and the
config service (`mcp-config.mjs`).

The JavaScript platform primitives the source leans on (`JSON.parse`,
`JSON.stringify`, `String.prototype.replace`, `String.prototype.trim`,
`Map`) are modelled below.  The JSON parser follows ECMA-404 as enforced
by `JSON.parse` (strict escapes, no raw control characters inside string
literals, no leading zeros), with one deliberate restriction: numeric
literals are limited to integers (no fraction or exponent part), which
covers every numeral occurring in the claims; parse-error *messages* are
model strings, since the engine-specific `SyntaxError` texts are not part
of the program's contract.
-/

namespace McpChainer

/-- A JSON value, as produced by `JSON.parse`.  Object fields are kept in
insertion order with unique keys (later duplicate keys overwrite earlier
ones, as `JSON.parse` does). -/
inductive Json where
  | null : Json
  | bool : Bool → Json
  | num : Int → Json
  | str : String → Json
  | arr : List Json → Json
  | obj : List (String × Json) → Json
  deriving Inhabited

/-- JavaScript truthiness of a JSON value (`null`, `false`, `0` and `""`
are falsy; arrays and objects are always truthy). -/
def jsTruthy : Json → Bool
  | .null => false
  | .bool b => b
  | .num n => n != 0
  | .str s => s != ""
  | .arr _ => true
  | .obj _ => true

/-- `Array.prototype.join`-style separator interleaving. -/
def joinSep (sep : String) : List String → String
  | [] => ""
  | [x] => x
  | x :: t => x ++ sep ++ joinSep sep t

/-- `String(x)` for the JSON values the executor can feed it. -/
def jsToString : Json → String
  | .null => "null"
  | .bool b => if b then "true" else "false"
  | .num n => toString n
  | .str s => s
  | .arr xs => joinSep "," (xs.map jsToStringAux)
  | .obj _ => "[object Object]"
where jsToStringAux : Json → String
  | .null => ""
  | .bool b => if b then "true" else "false"
  | .num n => toString n
  | .str s => s
  | .arr _ => ""
  | .obj _ => "[object Object]"

/-! ### JS `Map` (insertion-ordered, unique keys) -/

/-- A JavaScript `Map` as an insertion-ordered association list.
`set` on an existing key updates the value in place (keeping the key's
original position), as `Map.prototype.set` does. -/
def JsMap (κ α : Type) := List (κ × α)

namespace JsMap

variable {κ α : Type} [DecidableEq κ]

def empty : JsMap κ α := []

def set : JsMap κ α → κ → α → JsMap κ α
  | [], k, v => [(k, v)]
  | (k', v') :: t, k, v => if k' = k then (k, v) :: t else (k', v') :: set t k v

def get : JsMap κ α → κ → Option α
  | [], _ => none
  | (k', v') :: t, k => if k' = k then some v' else get t k

/-- `Map.prototype.values()`, in insertion order. -/
def values (m : JsMap κ α) : List α := m.map Prod.snd

end JsMap

/-! ### The JSON parser (`JSON.parse`) -/

/-- JSON insignificant whitespace (ECMA-404: space, tab, LF, CR). -/
def jsonWs (c : Char) : Bool := c = ' ' || c = '\t' || c = '\n' || c = '\r'

def skipWs : List Char → List Char
  | [] => []
  | c :: r => if jsonWs c then skipWs r else c :: r

/-- The single-character string escapes of JSON. -/
def escChar : Char → Option Char
  | '"' => some '"'
  | '\\' => some '\\'
  | '/' => some '/'
  | 'b' => some (Char.ofNat 8)
  | 'f' => some (Char.ofNat 12)
  | 'n' => some '\n'
  | 'r' => some '\r'
  | 't' => some '\t'
  | _ => none

def hexVal (c : Char) : Option Nat :=
  if '0' ≤ c ∧ c ≤ '9' then some (c.toNat - '0'.toNat)
  else if 'a' ≤ c ∧ c ≤ 'f' then some (c.toNat - 'a'.toNat + 10)
  else if 'A' ≤ c ∧ c ≤ 'F' then some (c.toNat - 'A'.toNat + 10)
  else none

/-- Body of a JSON string literal, after the opening quote.  Raw control
characters (below U+0020) are rejected, exactly as `JSON.parse` rejects
them. -/
def parseStringBody : List Char → Except String (List Char × List Char)
  | [] => .error "Unterminated string"
  | '"' :: rest => .ok ([], rest)
  | '\\' :: 'u' :: a :: b :: c :: d :: rest =>
    match hexVal a, hexVal b, hexVal c, hexVal d with
    | some ha, some hb, some hc, some hd =>
      (parseStringBody rest).map fun (cs, r) =>
        (Char.ofNat (((ha * 16 + hb) * 16 + hc) * 16 + hd) :: cs, r)
    | _, _, _, _ => .error "Bad Unicode escape"
  | '\\' :: e :: rest =>
    match escChar e with
    | some c => (parseStringBody rest).map fun (cs, r) => (c :: cs, r)
    | none => .error "Bad escaped character in string"
  | '\\' :: [] => .error "Unterminated string"
  | c :: rest =>
    if c.toNat < 0x20 then .error "Bad control character in string literal"
    else (parseStringBody rest).map fun (cs, r) => (c :: cs, r)

def digitsToInt (ds : List Char) : Int :=
  ds.foldl (fun acc c => acc * 10 + Int.ofNat (c.toNat - '0'.toNat)) 0

/-- A JSON numeric literal (restricted to integers, see the file header).
Leading zeros are rejected (`01` is a `SyntaxError` for `JSON.parse`). -/
def parseNumber (cs : List Char) : Except String (Json × List Char) :=
  let (neg, cs') := match cs with
    | '-' :: t => (true, t)
    | t => (false, t)
  let ds := cs'.takeWhile Char.isDigit
  let rest := cs'.dropWhile Char.isDigit
  if ds.isEmpty then .error "Unexpected token"
  else if ds.length > 1 ∧ ds.headI = '0' then .error "Unexpected number"
  else
    match rest with
    | '.' :: _ => .error "Unsupported numeral"
    | 'e' :: _ => .error "Unsupported numeral"
    | 'E' :: _ => .error "Unsupported numeral"
    | _ => .ok (.num (if neg then -(digitsToInt ds) else digitsToInt ds), rest)

mutual

/-- A JSON value.  `fuel` strictly decreases on every nested call; every
unit of fuel spent corresponds to at least half a character of consumed
input, so `4 * length + 8` fuel (used by `jsonParse`) never runs out. -/
def parseValue : Nat → List Char → Except String (Json × List Char)
  | 0, _ => .error "Out of fuel"
  | fuel + 1, cs =>
    match skipWs cs with
    | [] => .error "Unexpected end of JSON input"
    | c :: r =>
      if c = '{' then parseObject fuel r
      else if c = '[' then parseArray fuel r
      else if c = '"' then
        (parseStringBody r).map fun (cs', rest) => (.str (String.mk cs'), rest)
      else if c = 'n' then
        if r.take 3 = ['u', 'l', 'l'] then .ok (.null, r.drop 3)
        else .error "Unexpected token"
      else if c = 't' then
        if r.take 3 = ['r', 'u', 'e'] then .ok (.bool true, r.drop 3)
        else .error "Unexpected token"
      else if c = 'f' then
        if r.take 4 = ['a', 'l', 's', 'e'] then .ok (.bool false, r.drop 4)
        else .error "Unexpected token"
      else if c = '-' ∨ c.isDigit then parseNumber (c :: r)
      else .error "Unexpected token"

/-- The inside of an array, right after `[`. -/
def parseArray : Nat → List Char → Except String (Json × List Char)
  | 0, _ => .error "Out of fuel"
  | fuel + 1, cs =>
    match skipWs cs with
    | ']' :: r => .ok (.arr [], r)
    | r => parseArrayItems fuel r []

/-- Array elements: a value, then `,` (more elements) or `]`. -/
def parseArrayItems : Nat → List Char → List Json → Except String (Json × List Char)
  | 0, _, _ => .error "Out of fuel"
  | fuel + 1, cs, acc => do
    let (v, r1) ← parseValue fuel cs
    match skipWs r1 with
    | ',' :: r2 => parseArrayItems fuel r2 (acc ++ [v])
    | ']' :: r2 => .ok (.arr (acc ++ [v]), r2)
    | _ => .error "Expected comma or bracket after array element"

/-- The inside of an object, right after `{`. -/
def parseObject : Nat → List Char → Except String (Json × List Char)
  | 0, _ => .error "Out of fuel"
  | fuel + 1, cs =>
    match skipWs cs with
    | '}' :: r => .ok (.obj [], r)
    | r => parseObjectItems fuel r JsMap.empty

/-- Object members: a quoted key, `:`, a value, then `,` or `}`.
Duplicate keys overwrite (last one wins), as `JSON.parse` does. -/
def parseObjectItems : Nat → List Char → JsMap String Json → Except String (Json × List Char)
  | 0, _, _ => .error "Out of fuel"
  | fuel + 1, cs, acc =>
    match skipWs cs with
    | '"' :: r1 => do
      let (key, r2) ← parseStringBody r1
      match skipWs r2 with
      | ':' :: r3 => do
        let (v, r4) ← parseValue fuel r3
        let acc' := JsMap.set acc (String.mk key) v
        match skipWs r4 with
        | ',' :: r5 => parseObjectItems fuel r5 acc'
        | '}' :: r5 => .ok (.obj acc', r5)
        | _ => .error "Expected comma or brace after property value"
      | _ => .error "Expected colon after property name"
    | _ => .error "Expected property name"

end

/-- `JSON.parse`: parse a complete JSON text; trailing content (other than
JSON whitespace) is an error. -/
def jsonParse (s : String) : Except String Json :=
  match parseValue (4 * s.length + 8) s.toList with
  | .error e => .error e
  | .ok (v, rest) =>
    if skipWs rest = [] then .ok v else .error "Unexpected non-whitespace character after JSON"

def exceptIsOk {ε α : Type} : Except ε α → Bool
  | .ok _ => true
  | .error _ => false

/-! ### `JSON.stringify` -/

def hexDigit (n : Nat) : Char :=
  if n < 10 then Char.ofNat ('0'.toNat + n) else Char.ofNat ('a'.toNat + n - 10)

/-- How `JSON.stringify` renders one character inside a string literal. -/
def stringifyChar (c : Char) : List Char :=
  if c = '"' then ['\\', '"']
  else if c = '\\' then ['\\', '\\']
  else if c = '\n' then ['\\', 'n']
  else if c = '\r' then ['\\', 'r']
  else if c = '\t' then ['\\', 't']
  else if c = Char.ofNat 8 then ['\\', 'b']
  else if c = Char.ofNat 12 then ['\\', 'f']
  else if c.toNat < 0x20 then
    ['\\', 'u', '0', '0', hexDigit (c.toNat / 16), hexDigit (c.toNat % 16)]
  else [c]

def stringifyString (s : String) : String :=
  "\"" ++ String.mk (s.toList.foldr (fun c acc => stringifyChar c ++ acc) []) ++ "\""

mutual

/-- `JSON.stringify` (compact form, field order preserved). -/
def jsonStringify : Json → String
  | .null => "null"
  | .bool b => if b then "true" else "false"
  | .num n => toString n
  | .str s => stringifyString s
  | .arr xs => "[" ++ joinSep "," (stringifyElems xs) ++ "]"
  | .obj fs => "\x7b" ++ joinSep "," (stringifyFields fs) ++ "\x7d"

def stringifyElems : List Json → List String
  | [] => []
  | x :: t => jsonStringify x :: stringifyElems t

def stringifyFields : List (String × Json) → List String
  | [] => []
  | (k, v) :: t => (stringifyString k ++ ":" ++ jsonStringify v) :: stringifyFields t

end

/-! ### JS string primitives -/

/-- Whitespace stripped by `String.prototype.trim` (ASCII whitespace,
NBSP, BOM and the Unicode line separators; a superset of JSON
whitespace). -/
def jsWsChar (c : Char) : Bool :=
  c = ' ' || c = '\t' || c = '\n' || c = '\r' ||
  c = Char.ofNat 11 || c = Char.ofNat 12 || c = Char.ofNat 0xa0 ||
  c = Char.ofNat 0x2028 || c = Char.ofNat 0x2029 || c = Char.ofNat 0xfeff

def trimCharList (l : List Char) : List Char :=
  ((l.dropWhile jsWsChar).reverse.dropWhile jsWsChar).reverse

/-- `String.prototype.trim`. -/
def jsTrim (s : String) : String := String.mk (trimCharList s.toList)

/-- Anchored literal prefix test (models `^pattern` regexes and
`String.prototype.startsWith`). -/
def strStartsWith (s pat : String) : Bool := pat.toList.isPrefixOf s.toList

/-- Split at the first occurrence of `pat`:
`findSplit pat hay = some (before, after)` with `hay = before ++ pat ++ after`
and `before` shortest, matching `String.prototype.indexOf`. -/
def findSplit (pat : List Char) : List Char → Option (List Char × List Char)
  | [] => if pat.isPrefixOf [] then some ([], []) else none
  | c :: t =>
    if pat.isPrefixOf (c :: t) then some ([], (c :: t).drop pat.length)
    else (findSplit pat t).map fun (a, b) => (c :: a, b)

/-- `String.prototype.includes`. -/
def strContains (s pat : String) : Bool := (findSplit pat.toList s.toList).isSome

/-- The `GetSubstitution` expansion JavaScript applies to the replacement
string of `String.prototype.replace`: `$$` → `$`, `$&` → the match,
`$\x60` → the part before the match, the dollar-apostrophe form → the part
after it; everything else is literal (with a string pattern there are no
capture groups, so `$1`…`$99` stay literal). -/
def getSubstitution (matched before after : List Char) : List Char → List Char
  | [] => []
  | c :: t =>
    if c = '$' then
      match t with
      | [] => ['$']
      | c2 :: t2 =>
        if c2 = '$' then '$' :: getSubstitution matched before after t2
        else if c2 = '&' then matched ++ getSubstitution matched before after t2
        else if c2 = Char.ofNat 96 then before ++ getSubstitution matched before after t2
        else if c2 = Char.ofNat 39 then after ++ getSubstitution matched before after t2
        else '$' :: c2 :: getSubstitution matched before after t2
    else c :: getSubstitution matched before after t

/-- `s.replace(pat, rep)` with a plain-string pattern: replace the first
occurrence only, expanding `$`-patterns in the replacement. -/
def jsReplaceFirst (s pat rep : String) : String :=
  match findSplit pat.toList s.toList with
  | none => s
  | some (a, b) => String.mk (a ++ getSubstitution pat.toList a b rep.toList ++ b)

/-- `s.replace(/"/g, '\\"')`: escape every double quote. -/
def escapeQuotes (s : String) : String :=
  String.mk (s.toList.foldr (fun c acc => if c = '"' then '\\' :: '"' :: acc else c :: acc) [])

/-- JavaScript line terminators, which `.` in a regex does not match. -/
def jsLineTerm (c : Char) : Bool :=
  c = '\n' || c = '\r' || c = Char.ofNat 0x2028 || c = Char.ofNat 0x2029

/-- `s.replace(/\\(.)/g, '$1')`: remove one layer of backslash escapes.
A backslash whose next character is a line terminator is not matched by
`\\(.)` and is kept. -/
def stripLayerList : List Char → List Char
  | [] => []
  | '\\' :: c :: t => if jsLineTerm c then '\\' :: stripLayerList (c :: t) else c :: stripLayerList t
  | c :: t => c :: stripLayerList t

def stripOneLayer (s : String) : String := String.mk (stripLayerList s.toList)

/-! ### Chain executor (`src/services/chain-executor.mjs`) -/

/-- The sentinel token. -/
def CHAIN_RESULT : String := "CHAIN_RESULT"

/-- One round of `deepUnescape`'s two parse attempts: try `JSON.parse`
directly, then on the input wrapped as a quoted JSON string with its
quotes escaped (`none` models both attempts throwing). -/
def deepUnescapeOnce (str : String) : Option Json :=
  match jsonParse str with
  | .ok j => some j
  | .error _ =>
    match jsonParse ("\"" ++ escapeQuotes str ++ "\"") with
    | .ok j => some j
    | .error _ => none

/-- The body of `deepUnescape`, recursing on the remaining depth budget
`maxDepth - depth` (so `depth < maxDepth` is exactly `0 < fuel`): run the
two parse attempts; on failure, if the input contains a backslash and
budget remains, strip one escape layer and recurse; otherwise return the
current string. -/
def deepUnescapeAux : Nat → String → Json
  | 0, str =>
    match deepUnescapeOnce str with
    | some j => j
    | none => .str str
  | f + 1, str =>
    match deepUnescapeOnce str with
    | some j => j
    | none =>
      if str.toList.any (fun c => c = '\\') then deepUnescapeAux f (stripOneLayer str)
      else .str str

/-- `deepUnescape(str, depth, maxDepth)`. -/
def deepUnescape (str : String) (depth maxDepth : Nat) : Json :=
  deepUnescapeAux (maxDepth - depth) str

/-- A model of the `jsonpath-plus` `JSONPath` call: an evaluator takes the
path expression and the parsed value and either returns the list of
matches (it wraps results in an array) or throws (`none`). -/
def JsonPathEvaluator : Type := String → Json → Option (List Json)

/-- A concrete evaluator for the dotted-child paths used in the claims
(`$.name` with an alphanumeric name): on an object it returns the
matching value (or no matches), on anything else no matches; any other
path shape throws. -/
def jsonPathEvalSimple : JsonPathEvaluator := fun path json =>
  let cs := path.toList
  match cs with
  | '$' :: '.' :: key =>
    if key ≠ [] ∧ key.all (fun c => c.isAlphanum || c = '_') then
      match json with
      | .obj fs =>
        match JsMap.get fs (String.mk key) with
        | some v => some [v]
        | none => some []
      | _ => some []
    else none
  | _ => none

/-- The string-coercion prelude of `applyJsonPath` (lines 49–59 of the
source): if the data is a string, try `JSON.parse`; if that fails and the
string contains `{`, take the suffix from the first `{` and deep-unescape
it.  Note the source mutates `data` in place, so this possibly-truncated
value is what the surrounding `catch` returns. -/
def coerceToJsonValue (data : Json) : Json :=
  match data with
  | .str s =>
    match jsonParse s with
    | .ok j => j
    | .error _ =>
      match s.toList.findIdx? (· = '{') with
      | some i => deepUnescape (String.mk (s.toList.drop i)) 0 10
      | none => data
  | _ => data

/-- `applyJsonPath(data, jsonPath)`: coerce strings to JSON, evaluate the
path, unwrap singleton result arrays; any failure returns the current
`data` variable (which the coercion prelude may already have rewritten). -/
def applyJsonPath (jp : JsonPathEvaluator) (data : Json) (jsonPath : String) : Json :=
  let d := coerceToJsonValue data
  match (match d with | .str s => jsonParse s | x => .ok x) with
  | .error _ => d
  | .ok jsonData =>
    match jp jsonPath jsonData with
    | none => d
    | some extracted =>
      match extracted with
      | [x] => x
      | l => .arr l

/-- The substituted template `finalArgs` computed by `processToolArgs`
(lines 87–120): non-JSON string carries get their quotes escaped; a string
carry replaces the quoted sentinel if present, else the bare sentinel; a
non-string carry replaces the bare sentinel with `String(carry)`. -/
def substituteToolArgs (toolArgs : String) (chainResult : Json) : String :=
  let pr : Json :=
    match chainResult with
    | .str s => if exceptIsOk (jsonParse s) then .str s else .str (escapeQuotes s)
    | x => x
  match pr with
  | .str s =>
    if strContains toolArgs ("\"" ++ CHAIN_RESULT ++ "\"") then
      jsReplaceFirst toolArgs ("\"" ++ CHAIN_RESULT ++ "\"") ("\"" ++ s ++ "\"")
    else
      jsReplaceFirst toolArgs CHAIN_RESULT s
  | x => jsReplaceFirst toolArgs CHAIN_RESULT (jsToString x)

/-- `processToolArgs(toolArgs, chainResult)`: with no previous result the
template is parsed verbatim, otherwise the sentinel is substituted and the
result parsed; a parse failure propagates as the thrown error. -/
def processToolArgs (toolArgs : String) (chainResult : Json) : Except String Json :=
  match chainResult with
  | .null => jsonParse toolArgs
  | cr => jsonParse (substituteToolArgs toolArgs cr)

/-- One step of a chain (`McpChainRequestSchema`): absent optional fields
are `none`; the truthiness checks of the source make the empty string
behave like an absent field. -/
structure ChainStep where
  toolName : String
  toolArgs : String
  inputPath : Option String := none
  outputPath : Option String := none

/-- One `content` entry of a `tools/call` result (only `text` is read). -/
structure ContentItem where
  text : String

/-- The `result` object returned by `mcpClientManager.callTool`; `content`
is `none` when the field is absent. -/
structure ToolResponse where
  content : Option (List ContentItem)

/-- The downstream side of one chain execution: `callTool name args`
models `mcpClientManager.callTool` (an `error` is the thrown/rejected
error, message included). -/
def CallTool : Type := String → Json → Except String ToolResponse

/-- Container results of `inputPath` extraction are stringified; scalars
(and `null`) are kept as they are (lines 143–147). -/
def containerToString (x : Json) : Json :=
  match x with
  | .arr _ => .str (jsonStringify x)
  | .obj _ => .str (jsonStringify x)
  | y => y

/-- Truthiness of an optional string field (`inputPath && …`). -/
def optTruthy : Option String → Bool
  | some p => p ≠ ""
  | none => false

/-- The `inputPath` handling plus argument computation of one loop
iteration (lines 137–158): apply `inputPath` when present, past step 0
and with a truthy carry (stringifying container results), then parse the
template verbatim at step 0 and substitute otherwise. -/
def stepArgs (jp : JsonPathEvaluator) (i : Nat) (result : Json) (step : ChainStep) :
    Except String Json :=
  let processedResult :=
    if optTruthy step.inputPath ∧ 0 < i ∧ jsTruthy result then
      containerToString (applyJsonPath jp result (step.inputPath.getD ""))
    else result
  if i = 0 then jsonParse step.toolArgs
  else processToolArgs step.toolArgs processedResult

/-- The carry produced from a step's response text (lines 168–175):
`outputPath` extraction followed by `JSON.stringify`, or the text as
is. -/
def stepCarry (jp : JsonPathEvaluator) (step : ChainStep) (text : String) : Json :=
  if optTruthy step.outputPath then
    .str (jsonStringify (applyJsonPath jp (.str text) (step.outputPath.getD "")))
  else .str text

/-- The per-step loop of `executeChain` (lines 133–185): `i` is the step
index and `result` the carry (initially `null`).  Returns the final carry
(or the first thrown error) together with the list of tool calls made, in
order. -/
def execSteps (callTool : CallTool) (jp : JsonPathEvaluator) :
    Nat → Json → List ChainStep → Except String Json × List (String × Json)
  | _, result, [] => (.ok result, [])
  | i, result, step :: rest =>
    match stepArgs jp i result step with
    | .error e => (.error e, [])
    | .ok finalArgs =>
      match callTool step.toolName finalArgs with
      | .error e => (.error e, [(step.toolName, finalArgs)])
      | .ok toolResponse =>
        match toolResponse.content with
        | some (c :: _) =>
          let (r, calls) := execSteps callTool jp (i + 1) (stepCarry jp step c.text) rest
          (r, (step.toolName, finalArgs) :: calls)
        | _ => (.error ("工具 " ++ step.toolName ++ " 返回空响应"), [(step.toolName, finalArgs)])

/-- `executeChain(mcpPath)` together with its trace of tool calls. -/
def executeChain (callTool : CallTool) (jp : JsonPathEvaluator) (mcpPath : List ChainStep) :
    Except String Json × List (String × Json) :=
  execSteps callTool jp 0 .null mcpPath

/-! ### Tool registry (`mcp-client-manager.mjs`, `mcp-config.mjs`) -/

/-- `serverInfo` / `clientInfo` identity. -/
structure ServerInfo where
  name : String
  version : String
  deriving DecidableEq

/-- A tool as reported by `tools/list` (only `name` is used by the
registry logic). -/
structure ToolDecl where
  name : String
  deriving DecidableEq

/-- One entry of a config file's `mcpServers` table. -/
structure ServerConfig where
  command : String
  args : List String
  env : List (String × String)

/-- The registry record stored under each alias (the transport handle and
config echo carried by the source record do not affect any claim). -/
structure ToolInfo where
  name : String
  version : String
  serverJsonKey : String
  tool : ToolDecl
  deriving DecidableEq

/-- `getOtherServers`: every config entry except the reserved self-key.
`Object.entries` iterates string keys in insertion order, so the config
table is a list. -/
def getOtherServers (servers : List (String × ServerConfig)) : List (String × ServerConfig) :=
  servers.filter (fun p => p.1 ≠ "mcp_tool_chainer")

/-- `formatServerName` / the manager's local `formatName`: the global
regex replace that turns every hyphen into an underscore. -/
def formatName (name : String) : String :=
  String.mk (name.toList.map fun c => if c = '-' then '_' else c)

/-- A connected client as stored in `this.clients`. -/
structure Client where
  serverKey : String
  serverInfo : ServerInfo
  tools : List ToolDecl
  config : ServerConfig

/-- The registry record built for one reported tool. -/
def mkToolInfo (client : Client) (t : ToolDecl) : ToolInfo :=
  { name := client.serverInfo.name
    version := client.serverInfo.version
    serverJsonKey := client.serverKey
    tool := t }

/-- The registration loop of `registerToolsFromClient`, one reported tool
at a time. -/
def registerToolsFromClientAux (client : Client) :
    List ToolDecl → JsMap String ToolInfo → JsMap String ToolInfo
  | [], tools => tools
  | t :: rest, tools =>
    let toolInfo := mkToolInfo client t
    let acc1 := JsMap.set tools (formatName client.serverInfo.name ++ "_" ++ t.name) toolInfo
    let acc2 := JsMap.set acc1 (formatName client.serverKey ++ "_" ++ t.name) toolInfo
    registerToolsFromClientAux client rest (JsMap.set acc2 t.name toolInfo)

/-- `registerToolsFromClient`: each tool is inserted under three aliases —
`formatName(serverInfo.name)_tool`, `formatName(serverKey)_tool`, and the
bare tool name — all pointing at one shared record. -/
def registerToolsFromClient (tools : JsMap String ToolInfo) (client : Client) :
    JsMap String ToolInfo :=
  registerToolsFromClientAux client client.tools tools

/-- What one downstream server answers during discovery: the outcome of
the `initialize` send (`ok none` = a response without
`result.serverInfo`) and of the `tools/list` send. -/
structure DownstreamBehavior where
  init : Except String (Option ServerInfo)
  toolsList : Except String (Option (List ToolDecl))

/-- The downstream fleet's behavior, per server key and config. -/
def Oracle : Type := String → ServerConfig → DownstreamBehavior

/-- `connectToServer`: handshake, self-skip, `tools/list`.  `none` covers
both the self-skip (`return null`) and every thrown error — in either
case the caller registers nothing for this server. -/
def connectToServer (self : ServerInfo) (oracle : Oracle)
    (serverKey : String) (cfg : ServerConfig) : Option Client :=
  match (oracle serverKey cfg).init with
  | .error _ => none
  | .ok none => none
  | .ok (some serverInfo) =>
    if serverInfo = self then none
    else
      match (oracle serverKey cfg).toolsList with
      | .error _ => none
      | .ok none => none
      | .ok (some ts) =>
        some { serverKey := serverKey, serverInfo := serverInfo, tools := ts, config := cfg }

/-- The manager's mutable state: `this.clients` and `this.tools`. -/
structure Manager where
  clients : JsMap String Client
  tools : JsMap String ToolInfo

/-- Keep only the first occurrence of each element (the `seen`-set loop of
`getAvailableTools`). -/
def dedupKeepFirst {α : Type} [DecidableEq α] : List α → List α → List α
  | _, [] => []
  | seen, x :: t =>
    if x ∈ seen then dedupKeepFirst seen t
    else x :: dedupKeepFirst (x :: seen) t

/-- The primary alias of a registry record. -/
def primaryAlias (ti : ToolInfo) : String := formatName ti.name ++ "_" ++ ti.tool.name

/-- `getAvailableTools`: walk the registry values in insertion order and
collect each record's primary alias once. -/
def getAvailableTools (tools : JsMap String ToolInfo) : List String :=
  dedupKeepFirst [] ((JsMap.values tools).map primaryAlias)

/-- `findTool`. -/
def findTool (m : Manager) (toolName : String) : Option ToolInfo :=
  JsMap.get m.tools toolName

/-- `discoverTools`: clear both maps, close existing clients, then attempt
every non-self server in config order, registering the tools of each
successful connection; failures are logged and skipped.  Returns the new
state and `getAvailableTools()`. -/
def discoverStep (self : ServerInfo) (oracle : Oracle) (acc : Manager)
    (p : String × ServerConfig) : Manager :=
  match connectToServer self oracle p.1 p.2 with
  | some client =>
    { clients := JsMap.set acc.clients p.1 client
      tools := registerToolsFromClient acc.tools client }
  | none => acc

def discoverTools (m : Manager) (servers : List (String × ServerConfig))
    (self : ServerInfo) (oracle : Oracle) : Manager × List String :=
  let _ := m
  let cleared : Manager := { clients := JsMap.empty, tools := JsMap.empty }
  let final := (getOtherServers servers).foldl (discoverStep self oracle) cleared
  (final, getAvailableTools final.tools)

/-! ### Chain validation and the `mcp_chain` tool handler -/

/-- The per-step checks of `validateChainConfig` (truthy `toolName` and
`toolArgs`, `toolArgs` parses as JSON *verbatim*, the tool resolves). -/
def validateSteps (tools : JsMap String ToolInfo) : Nat → List ChainStep → Except String Unit
  | _, [] => .ok ()
  | i, step :: rest =>
    if step.toolName = "" then .error ("步骤 " ++ toString (i + 1) ++ " 缺少工具名称")
    else if step.toolArgs = "" then .error ("步骤 " ++ toString (i + 1) ++ " 缺少工具参数")
    else
      match jsonParse step.toolArgs with
      | .error m => .error ("步骤 " ++ toString (i + 1) ++ " 的工具参数不是有效的JSON: " ++ m)
      | .ok _ =>
        match JsMap.get tools step.toolName with
        | none => .error ("步骤 " ++ toString (i + 1) ++ " 中的工具未找到: " ++ step.toolName)
        | some _ => validateSteps tools (i + 1) rest

/-- `validateChainConfig(mcpPath)`. -/
def validateChainConfig (tools : JsMap String ToolInfo) (mcpPath : List ChainStep) :
    Except String Unit :=
  if mcpPath.isEmpty then .error "工具链路径不能为空"
  else validateSteps tools 0 mcpPath

/-- The `mcp_chain` tool handler (`src/tools/mcp-chain.mjs`, after the zod
schema has accepted the request): validate, execute, and return the final
text — and on *any* failure catch the error and return
`MCP工具链执行失败: <message>` as an ordinary successful result instead of
rethrowing.  An `Except.error` would model a JSON-RPC error response; this
handler never produces one. -/
def mcpChainHandler (tools : JsMap String ToolInfo) (callTool : CallTool)
    (jp : JsonPathEvaluator) (mcpPath : List ChainStep) : Except String Json :=
  match
    (match validateChainConfig tools mcpPath with
     | .error e => Except.error e
     | .ok _ => (executeChain callTool jp mcpPath).1 : Except String Json)
  with
  | .error e => .ok (.str ("MCP工具链执行失败: " ++ e))
  | .ok v => .ok v

/-! ### Line-delimited transport: frame filtering (`McpClientTransport`) -/

/-- The anchored reject patterns of `isValidJSON`. -/
def errorPatternMatch (t : String) : Bool :=
  strStartsWith t "[ERROR]" || strStartsWith t "[WARN]" || strStartsWith t "[INFO]" ||
  strStartsWith t "[DEBUG]" || strStartsWith t "Error:" || strStartsWith t "Warning:" ||
  strStartsWith t "<!DOCTYPE" || strStartsWith t "<html"

/-- `isValidJSON(str)`: non-empty, no reject-pattern prefix, first
non-whitespace byte `{` or `[`, and `JSON.parse` succeeds. -/
def isValidJSON (s : String) : Bool :=
  if s = "" then false
  else if errorPatternMatch (jsTrim s) then false
  else
    let trimmed := jsTrim s
    if ¬ (strStartsWith trimmed "\x7b" || strStartsWith trimmed "[") then false
    else exceptIsOk (jsonParse trimmed)

/-- `message.id` as JavaScript property access: only objects have one. -/
def objId (j : Json) : Option Json :=
  match j with
  | .obj fs => JsMap.get fs "id"
  | _ => none

/-- `processLine(line)` against the pending table (modelled by its set of
live request ids): returns the updated table and the dispatched
`(id, message)`, if any. -/
def processLine (pending : List Int) (line : String) : List Int × Option (Int × Json) :=
  let trimmedLine := jsTrim line
  if trimmedLine = "" then (pending, none)
  else if ¬ isValidJSON trimmedLine then (pending, none)
  else
    match jsonParse trimmedLine with
    | .error _ => (pending, none)
    | .ok message =>
      match objId message with
      | some idVal =>
        if jsTruthy idVal then
          match idVal with
          | .num n => if n ∈ pending then (pending.erase n, some (n, message)) else (pending, none)
          | _ => (pending, none)
        else (pending, none)
      | none => (pending, none)

/-! ### Transport request lifecycle (`send`, timers, `close`) -/

/-- How a pending continuation can be settled. -/
inductive TOutcome where
  | resolved
  | remoteRejected
  | timeoutRejected
  deriving DecidableEq

/-- Transport state: `connected`, the id counter (starting at 1), the set
of pending ids, and the log of settlements so far. -/
structure TState where
  connected : Bool
  nextId : Int
  pending : List Int
  log : List (Int × TOutcome)

/-- The events of one transport's lifetime: a `send` call (successful
write), the arrival of a frame carrying a given id (`isError` = the
response has an `error` member), a request timer firing, and `close()`. -/
inductive TEvent where
  | send
  | recvFrame (id : Int) (isError : Bool)
  | timeoutFire (id : Int)
  | close

/-- One step of the transport.  `send` installs the next id; a matching
frame removes the continuation and resolves or rejects it; the timer
rejects only if the id is still pending; `close()` kills the child and
*clears* the table — it settles nothing. -/
def tStep (s : TState) : TEvent → TState
  | .send =>
    if s.connected then
      { s with pending := s.nextId :: s.pending, nextId := s.nextId + 1 }
    else s
  | .recvFrame id isError =>
    if id ≠ 0 ∧ id ∈ s.pending then
      { s with
        pending := s.pending.erase id
        log := s.log ++ [(id, if isError then .remoteRejected else .resolved)] }
    else s
  | .timeoutFire id =>
    if id ∈ s.pending then
      { s with pending := s.pending.erase id, log := s.log ++ [(id, .timeoutRejected)] }
    else s
  | .close => { s with connected := false, pending := [] }

/-- The state right after `start()` resolves. -/
def tInit : TState := { connected := true, nextId := 1, pending := [], log := [] }

/-- Run a transport through a sequence of events. -/
def tRun (evs : List TEvent) : TState := evs.foldl tStep tInit

/-! ### Concrete fixtures used by the claim theorems -/

/-- `stripOneLayer` iterated. -/
def stripIter : Nat → String → String
  | 0, s => s
  | k + 1, s => stripIter k (stripOneLayer s)

/-- A registry holding the tool of the README's chaining example. -/
def xpathRegistry : JsMap String ToolInfo :=
  [("mcp_xpath_xpath",
    { name := "mcp-xpath", version := "1.0.0", serverJsonKey := "mcp_xpath",
      tool := { name := "xpath" } })]

/-- The second step of the README's "Chain Browser and XPath Tools"
example: a template whose sentinel sits in JSON-value position. -/
def xpathStep : ChainStep :=
  { toolName := "mcp_xpath_xpath"
    toolArgs := "\x7b\"xml\": CHAIN_RESULT, \"query\": \"//h1\"\x7d" }

/-- A registry with a single registered tool `t`. -/
def oneToolRegistry : JsMap String ToolInfo :=
  [("t", { name := "srv", version := "1.0", serverJsonKey := "t", tool := { name := "t" } })]

/-- A one-step chain calling `t` with empty arguments. -/
def oneStepChain : List ChainStep := [{ toolName := "t", toolArgs := "\x7b\x7d" }]

/-- A downstream whose `tools/call` send is rejected with `boom`. -/
def failingCallTool : CallTool := fun _ _ => .error "boom"

/-- The two-step chain of spec scenario 4: step 2 extracts `$.count` from
step 1's output and feeds it through an unquoted sentinel. -/
def scenario4Chain : List ChainStep :=
  [{ toolName := "t1", toolArgs := "\x7b\x7d" },
   { toolName := "t2", toolArgs := "\x7b\"n\":CHAIN_RESULT\x7d", inputPath := some "$.count" }]

/-- The downstream of spec scenario 4: `t1` returns the JSON text with
`count` and `items`, `t2` returns `done`. -/
def scenario4CallTool : CallTool := fun name _ =>
  if name = "t1" then .ok { content := some [{ text := "\x7b\"count\":3,\"items\":[\x7b\"id\":7\x7d]\x7d" }] }
  else .ok { content := some [{ text := "done" }] }

/-- A discovery oracle with one healthy server (`srvA`, two tools), one
failing server, and a self-echoing server. -/
def demoOracle : Oracle := fun k _ =>
  if k = "srvA" then
    { init := .ok (some { name := "my-server", version := "1.0" })
      toolsList := .ok (some [{ name := "alpha" }, { name := "beta" }]) }
  else if k = "self-echo" then
    { init := .ok (some { name := "lp-tool-chainer-mcp", version := "1.2.3" })
      toolsList := .ok (some [{ name := "gamma" }]) }
  else { init := .error "spawn failed", toolsList := .error "spawn failed" }

/-- A config table containing the reserved self-key, a healthy server, a
self-echoing server and a broken one. -/
def demoServers : List (String × ServerConfig) :=
  [("mcp_tool_chainer", { command := "node", args := [], env := [] }),
   ("srvA", { command := "a", args := [], env := [] }),
   ("self-echo", { command := "b", args := [], env := [] }),
   ("broken", { command := "c", args := [], env := [] })]

/-- The host identity of the fixture runs. -/
def hostInfo : ServerInfo := { name := "lp-tool-chainer-mcp", version := "1.2.3" }

/-!
## Claim theorems
-/

/-- C1.  The claim says validation accepts any chain whose `toolArgs` all
become valid JSON once the sentinel is replaced by a placeholder such as
`"__CR__"` and whose tool names resolve.  The source's
`validateChainConfig` instead runs `JSON.parse` on the raw template, so
the README's own chaining example — whose sentinel sits unquoted in JSON
value position — is rejected even though its placeholder form parses and
its tool resolves. -/
theorem c1_validation_rejects_placeholder_valid_template :
    validateChainConfig xpathRegistry [xpathStep] =
      .error "步骤 1 的工具参数不是有效的JSON: Unexpected token"
    ∧ exceptIsOk (jsonParse (jsReplaceFirst xpathStep.toolArgs CHAIN_RESULT "\"__CR__\"")) = true
    ∧ (JsMap.get xpathRegistry xpathStep.toolName).isSome = true :=
  ⟨rfl, rfl, rfl⟩

/-- C5.  Scenario 4 of the spec: step 1 returns
`{"count":3,"items":[{"id":7}]}`, step 2 has `inputPath $.count` and
template `{"n":CHAIN_RESULT}`; the argument object delivered to step 2's
tool call is `{"n":3}` (singleton JSONPath result unwrapped, scalar kept,
unquoted sentinel replaced by the textual encoding `3`), and the chain
finishes with step 2's text. -/
theorem c5_inputPath_unwrap_scalar_substitution :
    (executeChain scenario4CallTool jsonPathEvalSimple scenario4Chain).2 =
      [("t1", Json.obj []), ("t2", Json.obj [("n", Json.num 3)])]
    ∧ (executeChain scenario4CallTool jsonPathEvalSimple scenario4Chain).1 =
      .ok (.str "done") :=
  ⟨rfl, rfl⟩

/-- C2, counterexample.  A step failure (the downstream rejects with
`boom`) is not surfaced as an error response on `mcp_chain`: the handler
catches it and returns the text `MCP工具链执行失败: boom` as an ordinary
successful result, which names neither the step index nor the tool
name. -/
theorem c2_counterexample_failure_returned_as_success :
    mcpChainHandler oneToolRegistry failingCallTool jsonPathEvalSimple oneStepChain =
      .ok (.str "MCP工具链执行失败: boom")
    ∧ exceptIsOk
        (mcpChainHandler oneToolRegistry failingCallTool jsonPathEvalSimple oneStepChain) = true :=
  ⟨rfl, rfl⟩

/-- C3, counterexample.  Request 1 is issued and pending; `close()` is
called; afterwards its timer fires and even a matching frame arrives —
yet the settlement log stays empty: none of resolve / reject-timeout /
reject-close ever occurs, the continuation is simply dropped. -/
theorem c3_counterexample_close_settles_nothing :
    (tRun [.send]).pending = [1]
    ∧ (tRun [.send, .close, .timeoutFire 1, .recvFrame 1 false]).log = []
    ∧ (tRun [.send, .close, .timeoutFire 1, .recvFrame 1 false]).pending = [] :=
  ⟨rfl, rfl, rfl⟩

/-- C8, counterexample.  On `\q<TAB>` both parse attempts fail (`\q` is
not a valid escape and a raw TAB is forbidden inside a JSON string), one
escape layer is stripped, both attempts fail again, and with no backslash
left the function returns the *stripped* string `q<TAB>` — not the
original input. -/
theorem c8_counterexample_exhaustion_returns_stripped :
    deepUnescape "\\q\t" 0 10 = .str "q\t" ∧ ("q\t" : String) ≠ "\\q\t" :=
  ⟨rfl, by decide⟩

/-- C9, counterexample.  On the non-JSON string `abc{x` with any path,
the coercion prelude overwrites the data with the deep-unescaped suffix
from the first `{`, and the surrounding catch returns that value: the
result `{x` is not the input `abc{x`. -/
theorem c9_counterexample_fallback_is_truncated :
    applyJsonPath jsonPathEvalSimple (.str "abc\x7bx") "$.a" = .str "\x7bx"
    ∧ ("\x7bx" : String) ≠ "abc\x7bx" :=
  ⟨rfl, by decide⟩

/-! Helper lemmas for the chain-executor claims. -/

/-- `execSteps` propagates a step failure unchanged when further steps are
appended: the loop never reaches them. -/
theorem execSteps_error_append (callTool : CallTool) (jp : JsonPathEvaluator) :
    ∀ (steps ext : List ChainStep) (i : Nat) (r : Json) (e : String)
      (cs : List (String × Json)),
      execSteps callTool jp i r steps = (.error e, cs) →
      execSteps callTool jp i r (steps ++ ext) = (.error e, cs) := by
  intro steps
  induction steps with
  | nil => intro ext i r e cs h; simp [execSteps] at h
  | cons step rest ih =>
    intro ext i r e cs h
    rw [List.cons_append]
    rcases hargs : stepArgs jp i r step with e' | args
    · simpa [execSteps, hargs] using (by simpa [execSteps, hargs] using h : _)
    · rcases hcall : callTool step.toolName args with e' | resp
      · simpa [execSteps, hargs, hcall] using (by simpa [execSteps, hargs, hcall] using h : _)
      · rcases hcontent : resp.content with _ | ⟨_ | ⟨c, cs'⟩⟩
        · simpa [execSteps, hargs, hcall, hcontent] using
            (by simpa [execSteps, hargs, hcall, hcontent] using h : _)
        · simpa [execSteps, hargs, hcall, hcontent] using
            (by simpa [execSteps, hargs, hcall, hcontent] using h : _)
        · rcases hrec : execSteps callTool jp (i + 1) (stepCarry jp step c.text) rest
            with ⟨r', calls'⟩
          simp only [execSteps, hargs, hcall, hcontent, hrec, Prod.mk.injEq] at h
          obtain ⟨h1, h2⟩ := h
          have hrest := ih ext (i + 1) (stepCarry jp step c.text) e calls' (by rw [hrec, h1])
          simp only [execSteps, hargs, hcall, hcontent, hrest]
          simp [h2]

/-- `execSteps` makes at most one tool call per step. -/
theorem execSteps_calls_le (callTool : CallTool) (jp : JsonPathEvaluator) :
    ∀ (steps : List ChainStep) (i : Nat) (r : Json),
      (execSteps callTool jp i r steps).2.length ≤ steps.length := by
  intro steps
  induction steps with
  | nil => intro i r; simp [execSteps]
  | cons step rest ih =>
    intro i r
    rcases hargs : stepArgs jp i r step with e' | args
    · simp [execSteps, hargs]
    · rcases hcall : callTool step.toolName args with e' | resp
      · simp [execSteps, hcall, hargs]
      · rcases hcontent : resp.content with _ | ⟨_ | ⟨c, cs'⟩⟩
        · simp [execSteps, hargs, hcall, hcontent]
        · simp [execSteps, hargs, hcall, hcontent]
        · rcases hrec : execSteps callTool jp (i + 1) (stepCarry jp step c.text) rest
            with ⟨r', calls'⟩
          have := ih (i + 1) (stepCarry jp step c.text)
          rw [hrec] at this
          simp only [execSteps, hargs, hcall, hcontent, hrec, List.length_cons]
          exact Nat.succ_le_succ this

/-- C2, amended.  A per-step failure aborts the chain — the loop calls
each tool at most once, and the outcome is unchanged by any steps that
would follow — but the composite step-index/tool-name error exists only
in the logs: `executeChain` rethrows the underlying error unchanged, and
the `mcp_chain` handler catches it and hands the upstream client
`MCP工具链执行失败: <message>` as an ordinary successful result rather
than an error response. -/
theorem c2_step_failure_aborts_but_returns_success
    (tools : JsMap String ToolInfo) (callTool : CallTool) (jp : JsonPathEvaluator)
    (mcpPath : List ChainStep) (e : String) (calls : List (String × Json))
    (hok : validateChainConfig tools mcpPath = .ok ())
    (hfail : executeChain callTool jp mcpPath = (.error e, calls)) :
    mcpChainHandler tools callTool jp mcpPath = .ok (.str ("MCP工具链执行失败: " ++ e))
    ∧ calls.length ≤ mcpPath.length
    ∧ ∀ ext, executeChain callTool jp (mcpPath ++ ext) = (.error e, calls) := by
  refine ⟨?_, ?_, ?_⟩
  · have h1 : (executeChain callTool jp mcpPath).1 = .error e := by rw [hfail]
    simp only [mcpChainHandler, hok, h1]
  · have := execSteps_calls_le callTool jp mcpPath 0 .null
    rw [executeChain] at hfail
    rw [hfail] at this
    exact this
  · intro ext
    exact execSteps_error_append callTool jp mcpPath ext 0 .null e calls hfail

/-- Witness for C2's amended theorem at the concrete failing chain. -/
theorem c2_step_failure_witness :
    mcpChainHandler oneToolRegistry failingCallTool jsonPathEvalSimple oneStepChain =
      .ok (.str ("MCP工具链执行失败: " ++ "boom"))
    ∧ ([("t", Json.obj [])] : List (String × Json)).length ≤ oneStepChain.length
    ∧ ∀ ext, executeChain failingCallTool jsonPathEvalSimple (oneStepChain ++ ext) =
        (.error "boom", [("t", Json.obj [])]) :=
  c2_step_failure_aborts_but_returns_success oneToolRegistry failingCallTool
    jsonPathEvalSimple oneStepChain "boom" [("t", Json.obj [])] rfl rfl

/-! Helper lemmas about `dedupKeepFirst` and `JsMap`. -/

theorem dedupKeepFirst_sublist {α : Type} [DecidableEq α] :
    ∀ (l seen : List α), List.Sublist (dedupKeepFirst seen l) l := by
  intro l
  induction l with
  | nil => intro seen; simp [dedupKeepFirst]
  | cons x t ih =>
    intro seen
    by_cases hx : x ∈ seen
    · simp only [dedupKeepFirst, if_pos hx]
      exact (ih seen).cons x
    · simp only [dedupKeepFirst, if_neg hx]
      exact (ih (x :: seen)).cons₂ x

theorem mem_dedupKeepFirst {α : Type} [DecidableEq α] :
    ∀ (l seen : List α) (a : α), a ∈ dedupKeepFirst seen l ↔ a ∈ l ∧ a ∉ seen := by
  intro l
  induction l with
  | nil => intro seen a; simp [dedupKeepFirst]
  | cons x t ih =>
    intro seen a
    by_cases hx : x ∈ seen
    · rw [dedupKeepFirst, if_pos hx, ih]
      constructor
      · rintro ⟨h1, h2⟩; exact ⟨List.mem_cons_of_mem _ h1, h2⟩
      · rintro ⟨h1, h2⟩
        rcases List.mem_cons.mp h1 with rfl | h1'
        · exact absurd hx h2
        · exact ⟨h1', h2⟩
    · rw [dedupKeepFirst, if_neg hx]
      constructor
      · intro hmem
        rcases List.mem_cons.mp hmem with rfl | hmem'
        · exact ⟨List.mem_cons_self _ _, hx⟩
        · obtain ⟨h1, h2⟩ := (ih (x :: seen) a).mp hmem'
          exact ⟨List.mem_cons_of_mem _ h1,
            fun hc => h2 (List.mem_cons_of_mem _ hc)⟩
      · rintro ⟨h1, h2⟩
        rcases List.mem_cons.mp h1 with rfl | h1'
        · exact List.mem_cons_self _ _
        · by_cases hax : a = x
          · exact hax ▸ List.mem_cons_self _ _
          · refine List.mem_cons_of_mem _ ((ih (x :: seen) a).mpr ⟨h1', fun hc => ?_⟩)
            rcases List.mem_cons.mp hc with h | h
            · exact hax h
            · exact h2 h

theorem dedupKeepFirst_nodup {α : Type} [DecidableEq α] :
    ∀ (l seen : List α), (dedupKeepFirst seen l).Nodup := by
  intro l
  induction l with
  | nil => intro seen; simp [dedupKeepFirst]
  | cons x t ih =>
    intro seen
    by_cases hx : x ∈ seen
    · simp only [dedupKeepFirst, if_pos hx]; exact ih seen
    · simp only [dedupKeepFirst, if_neg hx]
      refine List.nodup_cons.mpr ⟨fun hc => ?_, ih (x :: seen)⟩
      exact ((mem_dedupKeepFirst t (x :: seen) x).mp hc).2 (List.mem_cons_self _ _)

theorem jsMap_get_set_cases {κ α : Type} [DecidableEq κ] :
    ∀ (m : JsMap κ α) (k k' : κ) (v ti : α),
      JsMap.get (JsMap.set m k v) k' = some ti → ti = v ∨ JsMap.get m k' = some ti := by
  intro m
  induction m with
  | nil =>
    intro k k' v ti h
    simp only [JsMap.set, JsMap.get] at h
    split at h
    · exact Or.inl (Option.some.inj h).symm
    · simp [JsMap.get] at h
  | cons p t ih =>
    intro k k' v ti h
    obtain ⟨pk, pv⟩ := p
    simp only [JsMap.set] at h
    split at h
    · rename_i hpk
      simp only [JsMap.get] at h ⊢
      split at h
      · exact Or.inl (Option.some.inj h).symm
      · rename_i hne
        rw [if_neg (hpk ▸ hne)]
        exact Or.inr h
    · simp only [JsMap.get] at h ⊢
      split at h
      · rename_i hpk
        rw [if_pos hpk]
        exact Or.inr h
      · rename_i hne
        rw [if_neg hne]
        exact ih k k' v ti h

/-- Every record reachable in `registerToolsFromClient`'s result is
either an old record or one freshly built from the client. -/
theorem registerToolsFromClient_origin :
    ∀ (ts : List ToolDecl) (client : Client) (tools : JsMap String ToolInfo)
      (k : String) (ti : ToolInfo),
      JsMap.get (registerToolsFromClientAux client ts tools) k = some ti →
      JsMap.get tools k = some ti ∨
        (ti.name = client.serverInfo.name ∧ ti.version = client.serverInfo.version) := by
  intro ts
  induction ts with
  | nil => intro client tools k ti h; exact Or.inl h
  | cons t rest ih =>
    intro client tools k ti h
    simp only [registerToolsFromClientAux] at h
    rcases ih client _ k ti h with hold | hnew
    · rcases jsMap_get_set_cases _ _ _ _ _ hold with rfl | h2
      · exact Or.inr ⟨rfl, rfl⟩
      · rcases jsMap_get_set_cases _ _ _ _ _ h2 with rfl | h3
        · exact Or.inr ⟨rfl, rfl⟩
        · rcases jsMap_get_set_cases _ _ _ _ _ h3 with rfl | h4
          · exact Or.inr ⟨rfl, rfl⟩
          · exact Or.inl h4
    · exact Or.inr hnew

/-- A successful `connectToServer` never returns a client whose
`serverInfo` equals the host identity: that case closes the transport and
returns `null`. -/
theorem connectToServer_not_self (self : ServerInfo) (oracle : Oracle)
    (serverKey : String) (cfg : ServerConfig) (client : Client)
    (h : connectToServer self oracle serverKey cfg = some client) :
    client.serverInfo ≠ self := by
  unfold connectToServer at h
  split at h
  · exact absurd h (by simp)
  · exact absurd h (by simp)
  · rename_i si _
    split at h
    · exact absurd h (by simp)
    · rename_i hne
      split at h
      · exact absurd h (by simp)
      · exact absurd h (by simp)
      · rw [← (Option.some.inj h)]
        exact hne

theorem serverInfo_eq_of (a b : ServerInfo) (h1 : a.name = b.name)
    (h2 : a.version = b.version) : a = b := by
  cases a; cases b
  simp only at h1 h2
  rw [h1, h2]

/-- The self-skip invariant is preserved by each discovery iteration. -/
theorem discoverStep_preserves (self : ServerInfo) (oracle : Oracle)
    (acc : Manager) (p : String × ServerConfig)
    (hinv : ∀ k ti, JsMap.get acc.tools k = some ti →
      ¬(ti.name = self.name ∧ ti.version = self.version)) :
    ∀ k ti, JsMap.get (discoverStep self oracle acc p).tools k = some ti →
      ¬(ti.name = self.name ∧ ti.version = self.version) := by
  intro k ti h
  unfold discoverStep at h
  split at h
  · rename_i client hconn
    rcases registerToolsFromClient_origin client.tools client acc.tools k ti h with hold | hnew
    · exact hinv k ti hold
    · rintro ⟨hn, hv⟩
      exact connectToServer_not_self self oracle p.1 p.2 client hconn
        (serverInfo_eq_of _ _ (hnew.1.symm.trans hn) (hnew.2.symm.trans hv))
  · exact hinv k ti h

/-- C7.  No self-reference ever enters the tool registry: the reserved
self-key `mcp_tool_chainer` is excluded from the servers discovery
iterates over, and every record in the registry produced by any discovery
run carries a `serverInfo` different from the host identity (a downstream
echoing the host identity is closed and contributes nothing). -/
theorem c7_no_self_reference_in_registry (m : Manager)
    (servers : List (String × ServerConfig)) (self : ServerInfo) (oracle : Oracle) :
    (∀ k ti, JsMap.get (discoverTools m servers self oracle).1.tools k = some ti →
      ¬(ti.name = self.name ∧ ti.version = self.version))
    ∧ ∀ p ∈ getOtherServers servers, p.1 ≠ "mcp_tool_chainer" := by
  constructor
  · have main : ∀ (l : List (String × ServerConfig)) (acc : Manager),
        (∀ k ti, JsMap.get acc.tools k = some ti →
          ¬(ti.name = self.name ∧ ti.version = self.version)) →
        ∀ k ti, JsMap.get (l.foldl (discoverStep self oracle) acc).tools k = some ti →
          ¬(ti.name = self.name ∧ ti.version = self.version) := by
      intro l
      induction l with
      | nil => intro acc hacc; exact hacc
      | cons p rest ih =>
        intro acc hacc
        exact ih (discoverStep self oracle acc p) (discoverStep_preserves self oracle acc p hacc)
    exact main (getOtherServers servers) _ (fun k ti h => by simp [JsMap.get, JsMap.empty] at h)
  · intro p hp
    exact of_decide_eq_true (List.mem_filter.mp hp).2

/-- Witness for C7 at the fixture discovery run: the record registered
under `my_server_alpha` is not the host. -/
theorem c7_no_self_reference_witness :
    ¬(({ name := "my-server", version := "1.0", serverJsonKey := "srvA",
         tool := { name := "alpha" } } : ToolInfo).name = hostInfo.name ∧
      ({ name := "my-server", version := "1.0", serverJsonKey := "srvA",
         tool := { name := "alpha" } } : ToolInfo).version = hostInfo.version) :=
  (c7_no_self_reference_in_registry { clients := [], tools := [] } demoServers hostInfo
    demoOracle).1 "my_server_alpha"
    { name := "my-server", version := "1.0", serverJsonKey := "srvA",
      tool := { name := "alpha" } } rfl

/-- C6.  Discovery is idempotent — its result is independent of the
manager state it starts from, because it first clears both maps — and the
returned list holds the primary alias `formatName(serverName)_toolName`
of each registered record exactly once (`Nodup` and the membership
equivalence), in registry insertion order (`Sublist` of the full
primary-alias sequence), even though every tool sits under three registry
keys. -/
theorem c6_discovery_idempotent_and_alias_list_nodup
    (m₁ m₂ : Manager) (servers : List (String × ServerConfig)) (self : ServerInfo)
    (oracle : Oracle) :
    (discoverTools m₁ servers self oracle).2 = (discoverTools m₂ servers self oracle).2
    ∧ ((discoverTools m₁ servers self oracle).2).Nodup
    ∧ List.Sublist (discoverTools m₁ servers self oracle).2
        ((JsMap.values (discoverTools m₁ servers self oracle).1.tools).map primaryAlias)
    ∧ ∀ a, a ∈ (discoverTools m₁ servers self oracle).2 ↔
        ∃ ti, ti ∈ JsMap.values (discoverTools m₁ servers self oracle).1.tools ∧
          a = primaryAlias ti := by
  refine ⟨rfl, ?_, ?_, ?_⟩
  · exact dedupKeepFirst_nodup _ []
  · exact dedupKeepFirst_sublist _ []
  · intro a
    rw [show (discoverTools m₁ servers self oracle).2 =
        getAvailableTools (discoverTools m₁ servers self oracle).1.tools from rfl]
    rw [getAvailableTools, mem_dedupKeepFirst]
    simp only [List.not_mem_nil, not_false_iff, and_true, List.mem_map]
    constructor
    · rintro ⟨ti, hmem, heq⟩; exact ⟨ti, hmem, heq.symm⟩
    · rintro ⟨ti, hmem, heq⟩; exact ⟨ti, hmem, heq.symm⟩

/-- Witness for C6: a second discovery starting from the state the first
one left behind returns the same alias list, and the fixture's alias
`my_server_alpha` is in it. -/
theorem c6_discovery_witness :
    (discoverTools { clients := [], tools := [] } demoServers hostInfo demoOracle).2 =
      (discoverTools (discoverTools { clients := [], tools := [] } demoServers hostInfo
        demoOracle).1 demoServers hostInfo demoOracle).2
    ∧ "my_server_alpha" ∈
        (discoverTools { clients := [], tools := [] } demoServers hostInfo demoOracle).2 := by
  constructor
  · exact (c6_discovery_idempotent_and_alias_list_nodup { clients := [], tools := [] }
      (discoverTools { clients := [], tools := [] } demoServers hostInfo demoOracle).1
      demoServers hostInfo demoOracle).1
  · refine ((c6_discovery_idempotent_and_alias_list_nodup { clients := [], tools := [] }
      { clients := [], tools := [] } demoServers hostInfo demoOracle).2.2.2
        "my_server_alpha").mpr ?_
    exact ⟨{ name := "my-server", version := "1.0", serverJsonKey := "srvA",
             tool := { name := "alpha" } }, by decide, rfl⟩

/-! Helper lemmas for the transport lifecycle (C3). -/

/-- The invariant maintained by the transport: issued ids are positive and
below the counter, the pending set has no duplicates, every logged id is
settled (no longer pending) and was issued, and no id is logged twice. -/
def TInv (s : TState) : Prop :=
  1 ≤ s.nextId
  ∧ (∀ id ∈ s.pending, 0 < id ∧ id < s.nextId)
  ∧ s.pending.Nodup
  ∧ (∀ p ∈ s.log, p.1 ∉ s.pending ∧ p.1 < s.nextId)
  ∧ (s.log.map Prod.fst).Nodup

theorem tInv_init : TInv tInit := by
  refine ⟨le_refl 1, ?_, ?_, ?_, ?_⟩ <;> simp [tInit]

/-- Settling an entry (by frame or by timer) preserves the invariant:
this is the common argument for `recvFrame` and `timeoutFire`. -/
theorem tInv_settle (s : TState) (id : Int) (o : TOutcome) (h : TInv s)
    (hid : id ∈ s.pending) :
    TInv { s with pending := s.pending.erase id, log := s.log ++ [(id, o)] } := by
  obtain ⟨h1, h2, h3, h4, h5⟩ := h
  refine ⟨h1, ?_, h3.erase id, ?_, ?_⟩
  · intro i hi
    exact h2 i (List.mem_of_mem_erase hi)
  · intro p hp
    rcases List.mem_append.mp hp with hp' | hp'
    · obtain ⟨hp1, hp2⟩ := h4 p hp'
      exact ⟨fun hc' => hp1 (List.mem_of_mem_erase hc'), hp2⟩
    · rcases List.mem_singleton.mp hp' with rfl
      refine ⟨fun hc' => ?_, (h2 id hid).2⟩
      exact absurd rfl ((h3.mem_erase_iff.mp hc').1)
  · rw [List.map_append]
    refine h5.append (by simp) ?_
    intro a ha hb
    rcases List.mem_singleton.mp hb with rfl
    obtain ⟨p, hp, rfl⟩ := List.mem_map.mp ha
    exact (h4 p hp).1 hid

theorem tInv_step (s : TState) (e : TEvent) (h : TInv s) : TInv (tStep s e) := by
  obtain ⟨h1, h2, h3, h4, h5⟩ := h
  cases e with
  | send =>
    by_cases hc : s.connected = true
    · simp only [tStep, if_pos hc]
      unfold TInv
      dsimp only
      refine ⟨by omega, ?_, ?_, ?_, h5⟩
      · intro id hid
        rcases List.mem_cons.mp hid with rfl | hid'
        · constructor <;> omega
        · have := h2 id hid'
          constructor <;> omega
      · refine List.nodup_cons.mpr ⟨fun hc' => ?_, h3⟩
        have := h2 _ hc'; omega
      · intro p hp
        obtain ⟨hp1, hp2⟩ := h4 p hp
        refine ⟨fun hc' => ?_, by omega⟩
        rcases List.mem_cons.mp hc' with heq | hmem
        · omega
        · exact hp1 hmem
    · simp only [tStep, if_neg hc]; exact ⟨h1, h2, h3, h4, h5⟩
  | recvFrame id isErr =>
    by_cases hc : id ≠ 0 ∧ id ∈ s.pending
    · simp only [tStep, if_pos hc]
      exact tInv_settle s id _ ⟨h1, h2, h3, h4, h5⟩ hc.2
    · simp only [tStep, if_neg hc]; exact ⟨h1, h2, h3, h4, h5⟩
  | timeoutFire id =>
    by_cases hc : id ∈ s.pending
    · simp only [tStep, if_pos hc]
      exact tInv_settle s id _ ⟨h1, h2, h3, h4, h5⟩ hc
    · simp only [tStep, if_neg hc]; exact ⟨h1, h2, h3, h4, h5⟩
  | close =>
    simp only [tStep]
    refine ⟨h1, by simp, by simp, ?_, h5⟩
    intro p hp
    exact ⟨by simp, (h4 p hp).2⟩

theorem tInv_foldl : ∀ (l : List TEvent) (s : TState), TInv s → TInv (l.foldl tStep s) := by
  intro l
  induction l with
  | nil => intro s hs; exact hs
  | cons e t ih => intro s hs; exact ih (tStep s e) (tInv_step s e hs)

theorem tInv_run (evs : List TEvent) : TInv (tRun evs) :=
  tInv_foldl evs tInit tInv_init

/-- A list whose keys are duplicate-free contains at most one entry per
key. -/
theorem filter_key_length_le_one :
    ∀ (l : List (Int × TOutcome)) (id : Int), (l.map Prod.fst).Nodup →
      (l.filter (fun p => p.1 = id)).length ≤ 1 := by
  intro l
  induction l with
  | nil => intro id _; simp
  | cons p t ih =>
    intro id hnd
    rw [List.map_cons, List.nodup_cons] at hnd
    obtain ⟨hp, ht⟩ := hnd
    by_cases hpid : p.1 = id
    · rw [List.filter_cons_of_pos (by simpa using hpid)]
      have : t.filter (fun q => q.1 = id) = [] := by
        rw [List.filter_eq_nil_iff]
        intro q hq hqid
        exact hp (hpid ▸ (by simpa using hqid) ▸ List.mem_map_of_mem Prod.fst hq)
      simp [this]
    · rw [List.filter_cons_of_neg (by simpa using hpid)]
      exact ih id ht

/-- After `close()` with an empty pending table, every further event is a
no-op. -/
theorem tStep_frozen (s : TState) (e : TEvent) (hc : s.connected = false)
    (hp : s.pending = []) : tStep s e = s := by
  cases e with
  | send => simp [tStep, hc]
  | recvFrame id isErr => simp [tStep, hp]
  | timeoutFire id => simp [tStep, hp]
  | close => cases s; simp_all [tStep]

theorem foldl_frozen : ∀ (l : List TEvent) (s : TState), s.connected = false →
    s.pending = [] → l.foldl tStep s = s := by
  intro l
  induction l with
  | nil => intro s _ _; rfl
  | cons e t ih =>
    intro s hc hp
    rw [List.foldl_cons, tStep_frozen s e hc hp]
    exact ih s hc hp

/-- C3, amended.  Pending-table entries are settled *at most* once — by a
matching frame or by the deadline timer — never exactly once: `close()`
merely clears the table without rejecting anything, so from the `close`
event on the transport is frozen (a request still pending at `close`
never receives any settlement; its timer finds the id gone and does
nothing). -/
theorem c3_at_most_one_settlement_and_close_drops (evs : List TEvent) :
    (∀ id : Int, ((tRun evs).log.filter (fun p => p.1 = id)).length ≤ 1)
    ∧ ∀ pre post, evs = pre ++ TEvent.close :: post →
        tRun evs = tRun (pre ++ [TEvent.close]) := by
  constructor
  · intro id
    exact filter_key_length_le_one _ id (tInv_run evs).2.2.2.2
  · intro pre post heq
    have hsplit : evs = (pre ++ [TEvent.close]) ++ post := by
      rw [heq, List.append_assoc]; rfl
    rw [hsplit]
    show ((pre ++ [TEvent.close]) ++ post).foldl tStep tInit = _
    rw [List.foldl_append]
    apply foldl_frozen
    · show ((pre ++ [TEvent.close]).foldl tStep tInit).connected = false
      rw [List.foldl_append]
      simp [tStep]
    · show ((pre ++ [TEvent.close]).foldl tStep tInit).pending = []
      rw [List.foldl_append]
      simp [tStep]

/-- Witness for C3's amended theorem at the counterexample trace. -/
theorem c3_amended_witness :
    (((tRun [TEvent.send, TEvent.close, TEvent.timeoutFire 1]).log.filter
        (fun p => p.1 = 1)).length ≤ 1)
    ∧ tRun [TEvent.send, TEvent.close, TEvent.timeoutFire 1] =
        tRun ([TEvent.send] ++ [TEvent.close]) :=
  ⟨(c3_at_most_one_settlement_and_close_drops _).1 1,
   (c3_at_most_one_settlement_and_close_drops _).2 [TEvent.send] [TEvent.timeoutFire 1] rfl⟩

/-- The characterisation of `deepUnescapeAux` for an arbitrary remaining
depth budget: some number `k` of stripping rounds happens, every earlier
round had both parse attempts fail on a backslash-containing string, the
result is the first successful parse (or the `k`-times-stripped string),
and stripping only stops on success, on a backslash-free string, or on
budget exhaustion. -/
theorem deepUnescapeAux_characterisation :
    ∀ (fuel : Nat) (s : String), ∃ k, k ≤ fuel
      ∧ (∀ j < k, deepUnescapeOnce (stripIter j s) = none
          ∧ (stripIter j s).toList.any (fun c => c = '\\') = true)
      ∧ deepUnescapeAux fuel s =
          (match deepUnescapeOnce (stripIter k s) with
           | some j => j
           | none => .str (stripIter k s))
      ∧ (deepUnescapeOnce (stripIter k s) = none →
          (stripIter k s).toList.any (fun c => c = '\\') = false ∨ k = fuel) := by
  intro fuel
  induction fuel with
  | zero =>
    intro s
    exact ⟨0, le_refl 0, by omega, rfl, fun _ => Or.inr rfl⟩
  | succ f ih =>
    intro s
    rcases hone : deepUnescapeOnce s with _ | j
    · rcases hbs : s.toList.any (fun c => c = '\\') with _ | _
      · refine ⟨0, Nat.zero_le _, by omega, ?_, fun _ => Or.inl hbs⟩
        show deepUnescapeAux (f + 1) s = _
        rw [show stripIter 0 s = s from rfl, hone]
        simp only [deepUnescapeAux, hone, hbs, Bool.false_eq_true, if_false]
      · obtain ⟨k', hk', hfails, heq, hlast⟩ := ih (stripOneLayer s)
        refine ⟨k' + 1, by omega, ?_, ?_, ?_⟩
        · intro j hj
          cases j with
          | zero => exact ⟨hone, hbs⟩
          | succ j' =>
            rw [show stripIter (j' + 1) s = stripIter j' (stripOneLayer s) from rfl]
            exact hfails j' (by omega)
        · rw [show deepUnescapeAux (f + 1) s = deepUnescapeAux f (stripOneLayer s) from by
              simp only [deepUnescapeAux, hone, hbs, if_true]]
          exact heq
        · intro hnone
          rcases hlast hnone with h | h
          · exact Or.inl h
          · exact Or.inr (by omega)
    · refine ⟨0, Nat.zero_le _, by omega, ?_, ?_⟩
      · show deepUnescapeAux (f + 1) s = _
        rw [show stripIter 0 s = s from rfl, hone]
        simp only [deepUnescapeAux, hone]
      · intro hnone
        rw [show stripIter 0 s = s from rfl] at hnone
        exact absurd (hone ▸ hnone) (by simp)

/-- C8, amended.  `deepUnescape` terminates with recursion depth bounded
by `maxDepth = 10` and follows exactly the claimed steps — try
`JSON.parse`, then the quote-escaped wrapped parse, then strip one escape
layer and recurse while a backslash remains and depth allows — but on
exhaustion it returns the *current* recursion level's string (the input
with `k` escape layers removed), which differs from the original input
whenever a stripping round changed it. -/
theorem c8_deepUnescape_bounded_and_stepwise (s : String) :
    ∃ k, k ≤ 10
    ∧ (∀ j < k, deepUnescapeOnce (stripIter j s) = none
        ∧ (stripIter j s).toList.any (fun c => c = '\\') = true)
    ∧ deepUnescape s 0 10 =
        (match deepUnescapeOnce (stripIter k s) with
         | some j => j
         | none => .str (stripIter k s))
    ∧ (deepUnescapeOnce (stripIter k s) = none →
        (stripIter k s).toList.any (fun c => c = '\\') = false ∨ k = 10) :=
  deepUnescapeAux_characterisation 10 s

/-- Witness for C8's amended theorem at the counterexample input. -/
theorem c8_deepUnescape_witness :
    ∃ k, k ≤ 10
    ∧ (∀ j < k, deepUnescapeOnce (stripIter j "\\q\t") = none
        ∧ (stripIter j "\\q\t").toList.any (fun c => c = '\\') = true)
    ∧ deepUnescape "\\q\t" 0 10 =
        (match deepUnescapeOnce (stripIter k "\\q\t") with
         | some j => j
         | none => .str (stripIter k "\\q\t"))
    ∧ (deepUnescapeOnce (stripIter k "\\q\t") = none →
        (stripIter k "\\q\t").toList.any (fun c => c = '\\') = false ∨ k = 10) :=
  c8_deepUnescape_bounded_and_stepwise "\\q\t"

/-- C9, amended.  `applyJsonPath` is total — it catches every failure —
but the fallback it returns is the current `data` variable after the
string-coercion prelude, not necessarily the input: either the coercion
chain and the path evaluation succeed and the (singleton-unwrapped)
extraction is returned, or the result is `coerceToJsonValue data`.  The
latter equals the input for every non-string input and for every string
input with no `{`; for a string that fails `JSON.parse` and contains `{`
it is the deep-unescaped suffix from the first `{`. -/
theorem c9_applyJsonPath_total_with_coerced_fallback
    (jp : JsonPathEvaluator) (data : Json) (path : String) :
    (applyJsonPath jp data path = coerceToJsonValue data
     ∨ ∃ v l, (match coerceToJsonValue data with
                | .str s => jsonParse s
                | x => .ok x) = .ok v
        ∧ jp path v = some l
        ∧ applyJsonPath jp data path = (match l with | [x] => x | _ => .arr l))
    ∧ ((∀ s, data ≠ .str s) → coerceToJsonValue data = data)
    ∧ (∀ s, data = .str s → exceptIsOk (jsonParse s) = false →
        s.toList.all (fun c => c ≠ '{') = true → coerceToJsonValue data = data) := by
  refine ⟨?_, ?_, ?_⟩
  · rw [applyJsonPath]
    rcases hcoerce : (match coerceToJsonValue data with
        | .str s => jsonParse s
        | x => Except.ok x) with e | v
    · rw [hcoerce]
      exact Or.inl rfl
    · rw [hcoerce]
      dsimp only
      rcases hjp : jp path v with _ | l
      · exact Or.inl rfl
      · refine Or.inr ⟨v, l, rfl, hjp, ?_⟩
        rcases l with _ | ⟨x, _ | ⟨y, t⟩⟩ <;> rfl
  · intro hns
    rcases data with _ | b | n | s | xs | fs
    · rfl
    · rfl
    · rfl
    · exact absurd rfl (hns s)
    · rfl
    · rfl
  · rintro s rfl hfail hnb
    rw [coerceToJsonValue]
    rcases hparse : jsonParse s with e | j
    · rw [show s.toList.findIdx? (fun c => c = '{') = none from ?_]
      · rw [List.findIdx?_eq_none_iff]
        intro c hc
        simpa using List.all_eq_true.mp hnb c hc
    · rw [hparse] at hfail
      exact absurd hfail (by simp [exceptIsOk])

/-- Witness for C9's amended theorem: a non-JSON, brace-free string is
returned unchanged. -/
theorem c9_applyJsonPath_witness : coerceToJsonValue (.str "x") = .str "x" :=
  (c9_applyJsonPath_total_with_coerced_fallback jsonPathEvalSimple (.str "x") "$.a").2.2
    "x" rfl rfl (by decide)

/-! Helper lemmas about first-occurrence replacement (C10). -/

theorem string_toList_append (s t : String) : (s ++ t).toList = s.toList ++ t.toList :=
  String.data_append s t

theorem string_ext_toList {s t : String} (h : s.toList = t.toList) : s = t :=
  String.ext h

/-- A replacement string without `$` is substituted literally. -/
theorem getSubstitution_no_dollar (m a b : List Char) :
    ∀ (rep : List Char), (∀ ch ∈ rep, ch ≠ '$') → getSubstitution m a b rep = rep := by
  intro rep
  induction rep with
  | nil => intro _; rfl
  | cons c t ih =>
    intro h
    have hc : ¬(c = '$') := h c (List.mem_cons_self _ _)
    rw [getSubstitution.eq_def]
    dsimp only
    rw [if_neg hc, ih (fun ch hch => h ch (List.mem_cons_of_mem _ hch))]

theorem escapeQuotes_chars (c : String) :
    ∀ ch ∈ (escapeQuotes c).toList, ch = '\\' ∨ ch ∈ c.toList := by
  show ∀ ch ∈ c.toList.foldr (fun c acc => if c = '"' then '\\' :: '"' :: acc else c :: acc) [],
    ch = '\\' ∨ ch ∈ c.toList
  induction c.toList with
  | nil => intro ch hch; cases hch
  | cons x t ih =>
    intro ch hch
    by_cases hx : x = '"'
    · rw [List.foldr_cons, if_pos hx] at hch
      rcases List.mem_cons.mp hch with rfl | hch'
      · exact Or.inl rfl
      · rcases List.mem_cons.mp hch' with rfl | hch''
        · exact Or.inr (hx ▸ List.mem_cons_self _ _)
        · rcases ih ch hch'' with h | h
          · exact Or.inl h
          · exact Or.inr (List.mem_cons_of_mem _ h)
    · rw [List.foldr_cons, if_neg hx] at hch
      rcases List.mem_cons.mp hch with rfl | hch'
      · exact Or.inr (List.mem_cons_self _ _)
      · rcases ih ch hch' with h | h
        · exact Or.inl h
        · exact Or.inr (List.mem_cons_of_mem _ h)

/-- A decomposition around the pattern guarantees `findSplit` finds an
occurrence. -/
theorem findSplit_isSome_of_decomp (pat : List Char) :
    ∀ (x y : List Char), (findSplit pat (x ++ pat ++ y)).isSome = true := by
  intro x
  induction x with
  | nil =>
    intro y
    have hpre : pat.isPrefixOf (pat ++ y) = true :=
      List.isPrefixOf_iff_prefix.mpr (List.prefix_append _ _)
    rcases pat with _ | ⟨p, pt⟩
    · rcases y with _ | ⟨c, t⟩ <;> simp [findSplit, List.isPrefixOf]
    · rw [List.nil_append]
      show (findSplit (p :: pt) (p :: (pt ++ y))).isSome = true
      rw [findSplit, if_pos (by exact hpre)]
      rfl
  | cons a x' ih =>
    intro y
    show (findSplit pat (a :: (x' ++ pat ++ y))).isSome = true
    rw [findSplit]
    by_cases hpre : pat.isPrefixOf (a :: (x' ++ pat ++ y)) = true
    · rw [if_pos hpre]; rfl
    · rw [if_neg hpre]
      cases hfind : findSplit pat (x' ++ pat ++ y) with
      | none =>
        have := ih y
        rw [hfind] at this
        cases this
      | some p =>
        rfl

/-- `strContains s pat = false` rules out every decomposition. -/
theorem no_decomp_of_not_contains (s pat : String)
    (h : strContains s pat = false) :
    ∀ x y : List Char, s.toList ≠ x ++ pat.toList ++ y := by
  intro x y heq
  rw [strContains, heq, findSplit_isSome_of_decomp] at h
  cases h

/-- When no occurrence of the (non-empty) pattern starts strictly before
position `|a|`, `findSplit` splits exactly there. -/
theorem findSplit_first (pat : List Char) (hne : pat ≠ []) :
    ∀ (a b : List Char), (∀ x y : List Char, a ++ pat.dropLast ≠ x ++ pat ++ y) →
      findSplit pat (a ++ pat ++ b) = some (a, b) := by
  intro a
  induction a with
  | nil =>
    intro b _
    have hpre : pat.isPrefixOf (pat ++ b) = true :=
      List.isPrefixOf_iff_prefix.mpr (List.prefix_append _ _)
    rcases hp : pat with _ | ⟨p, pt⟩
    · exact absurd hp hne
    · rw [List.nil_append]
      show findSplit (p :: pt) (p :: (pt ++ b)) = some ([], b)
      rw [findSplit, if_pos (by rw [hp] at hpre; exact hpre)]
      have : ((p :: pt) ++ b).drop (p :: pt).length = b := List.drop_left _ _
      rw [show (p :: (pt ++ b)) = (p :: pt) ++ b from rfl, this]
  | cons c a' ih =>
    intro b hfirst
    show findSplit pat (c :: (a' ++ pat ++ b)) = some (c :: a', b)
    rw [findSplit]
    have hnotpre : ¬ pat.isPrefixOf (c :: (a' ++ pat ++ b)) = true := by
      intro hpre
      have hprefix : pat <+: (c :: (a' ++ pat ++ b)) := List.isPrefixOf_iff_prefix.mp hpre
      have hshort : ((c :: a') ++ pat.dropLast) <+: (c :: (a' ++ pat ++ b)) := by
        have hsplit : (c :: (a' ++ pat ++ b)) =
            ((c :: a') ++ pat.dropLast) ++ ([pat.getLast hne] ++ b) := by
          rw [List.append_assoc, List.append_assoc, ← List.append_assoc pat.dropLast,
            List.dropLast_append_getLast hne]
          rfl
        rw [hsplit]
        exact List.prefix_append _ _
      have hlen : pat.length ≤ ((c :: a') ++ pat.dropLast).length := by
        rw [List.length_append, List.length_cons, List.length_dropLast]
        have : 1 ≤ pat.length := List.length_pos.mpr hne
        omega
      have hsub : pat <+: ((c :: a') ++ pat.dropLast) :=
        List.prefix_of_prefix_length_le hprefix hshort hlen
      obtain ⟨t, ht⟩ := hsub
      exact hfirst [] t ht.symm
    rw [if_neg hnotpre]
    have ih' := ih b (fun x y hxy => hfirst (c :: x) y (by rw [List.cons_append, hxy]; rfl))
    rw [ih']
    rfl

/-- `replace` on a string decomposed around the first occurrence of the
pattern, with a `$`-free replacement: only that occurrence is replaced
and the suffix survives verbatim. -/
theorem jsReplaceFirst_decomp (A B pat rep : String) (hne : pat.toList ≠ [])
    (hfirst : ∀ x y : List Char, A.toList ++ pat.toList.dropLast ≠ x ++ pat.toList ++ y)
    (hnd : ∀ ch ∈ rep.toList, ch ≠ '$') :
    jsReplaceFirst (A ++ pat ++ B) pat rep = A ++ rep ++ B := by
  rw [jsReplaceFirst]
  have htl : (A ++ pat ++ B).toList = A.toList ++ pat.toList ++ B.toList := by
    rw [string_toList_append, string_toList_append]
  rw [htl, findSplit_first pat.toList hne A.toList B.toList hfirst]
  dsimp only
  rw [getSubstitution_no_dollar _ _ _ _ hnd]
  apply string_ext_toList
  rw [string_toList_append (A ++ rep) B, string_toList_append A rep]
  rfl

/-- The companion fact: the decomposition makes `includes` true. -/
theorem strContains_of_decomp (A B pat : String) (hne : pat.toList ≠ [])
    (hfirst : ∀ x y : List Char, A.toList ++ pat.toList.dropLast ≠ x ++ pat.toList ++ y) :
    strContains (A ++ pat ++ B) pat = true := by
  rw [strContains]
  have htl : (A ++ pat ++ B).toList = A.toList ++ pat.toList ++ B.toList := by
    rw [string_toList_append, string_toList_append]
  rw [htl, findSplit_first pat.toList hne A.toList B.toList hfirst]
  rfl

/-- The shape of `substituteToolArgs` on a string carry. -/
theorem substituteToolArgs_str (toolArgs c : String) :
    substituteToolArgs toolArgs (.str c) =
      (if strContains toolArgs ("\"" ++ CHAIN_RESULT ++ "\"") then
        jsReplaceFirst toolArgs ("\"" ++ CHAIN_RESULT ++ "\"")
          ("\"" ++ (if exceptIsOk (jsonParse c) then c else escapeQuotes c) ++ "\"")
      else
        jsReplaceFirst toolArgs CHAIN_RESULT
          (if exceptIsOk (jsonParse c) then c else escapeQuotes c)) := by
  rw [substituteToolArgs]
  by_cases hpc : exceptIsOk (jsonParse c) = true
  · rw [if_pos hpc, if_pos hpc]
  · rw [if_neg hpc, if_neg hpc]

/-- C10.  Sentinel substitution replaces only the first occurrence.  For
a string carry `c` (with no `$`, which `replace` would expand): when the
template decomposes as `A ++ "CHAIN_RESULT" (quoted) ++ B` with no
occurrence starting inside `A`, exactly that occurrence is replaced —
by the carry wrapped in quotes (quote-escaped first if `c` is not JSON) —
and `B`, together with every further occurrence it contains, survives
verbatim; when the quoted form is absent, the same happens to the first
bare `CHAIN_RESULT` token. -/
theorem c10_sentinel_replaced_first_occurrence_only (A B c : String)
    (hnd : ∀ ch ∈ c.toList, ch ≠ '$') :
    ((strContains (A ++ "\"CHAIN_RESULT") "\"CHAIN_RESULT\"" = false) →
      substituteToolArgs (A ++ "\"CHAIN_RESULT\"" ++ B) (.str c) =
        A ++ ("\"" ++ (if exceptIsOk (jsonParse c) then c else escapeQuotes c) ++ "\"") ++ B)
    ∧ ((strContains (A ++ "CHAIN_RESULT" ++ B) "\"CHAIN_RESULT\"" = false) →
      (strContains (A ++ "CHAIN_RESUL") "CHAIN_RESULT" = false) →
      substituteToolArgs (A ++ "CHAIN_RESULT" ++ B) (.str c) =
        A ++ (if exceptIsOk (jsonParse c) then c else escapeQuotes c) ++ B) := by
  have hq : ("\"" ++ CHAIN_RESULT ++ "\"" : String) = "\"CHAIN_RESULT\"" := rfl
  have hsnd : ∀ ch ∈ (if exceptIsOk (jsonParse c) then c else escapeQuotes c).toList,
      ch ≠ '$' := by
    by_cases hpc : exceptIsOk (jsonParse c) = true
    · rw [if_pos hpc]; exact hnd
    · rw [if_neg hpc]
      intro ch hch
      rcases escapeQuotes_chars c ch hch with rfl | hmem
      · decide
      · exact hnd ch hmem
  constructor
  · intro h1
    have hfirst : ∀ x y : List Char,
        A.toList ++ ("\"CHAIN_RESULT\"" : String).toList.dropLast ≠
          x ++ ("\"CHAIN_RESULT\"" : String).toList ++ y := by
      intro x y heq
      refine no_decomp_of_not_contains _ _ h1 x y ?_
      rw [string_toList_append]
      exact heq
    rw [substituteToolArgs_str, hq,
      if_pos (strContains_of_decomp A B "\"CHAIN_RESULT\"" (by decide) hfirst)]
    apply jsReplaceFirst_decomp A B "\"CHAIN_RESULT\""
      ("\"" ++ (if exceptIsOk (jsonParse c) then c else escapeQuotes c) ++ "\"")
      (by decide) hfirst
    intro ch hch
    rw [string_toList_append, string_toList_append] at hch
    rcases List.mem_append.mp hch with hch' | hch'
    · rcases List.mem_append.mp hch' with hch'' | hch''
      · rcases List.mem_singleton.mp (by simpa using hch'') with rfl
        decide
      · exact hsnd ch hch''
    · rcases List.mem_singleton.mp (by simpa using hch') with rfl
      decide
  · intro h2a h2b
    have hfirst : ∀ x y : List Char,
        A.toList ++ ("CHAIN_RESULT" : String).toList.dropLast ≠
          x ++ ("CHAIN_RESULT" : String).toList ++ y := by
      intro x y heq
      refine no_decomp_of_not_contains _ _ h2b x y ?_
      rw [string_toList_append]
      exact heq
    rw [substituteToolArgs_str, hq, if_neg (by rw [h2a]; exact Bool.false_ne_true)]
    exact jsReplaceFirst_decomp A B "CHAIN_RESULT"
      (if exceptIsOk (jsonParse c) then c else escapeQuotes c) (by decide) hfirst hsnd

/-- Witness for C10 at a template with two quoted sentinel occurrences:
only the first is replaced and the second survives verbatim. -/
theorem c10_sentinel_witness :
    substituteToolArgs ("\x7b\"a\":" ++ "\"CHAIN_RESULT\"" ++ ", \"b\":\"CHAIN_RESULT\"\x7d")
        (.str "x") =
      "\x7b\"a\":" ++ ("\"" ++ (if exceptIsOk (jsonParse "x") then "x" else escapeQuotes "x")
        ++ "\"") ++ ", \"b\":\"CHAIN_RESULT\"\x7d" :=
  (c10_sentinel_replaced_first_occurrence_only "\x7b\"a\":" ", \"b\":\"CHAIN_RESULT\"\x7d" "x"
    (by decide)).1 (by decide)

/-! Helper lemmas for the frame-acceptance claim (C4). -/

theorem dropWhile_head_false {p : Char → Bool} :
    ∀ {l t : List Char} {c : Char}, List.dropWhile p l = c :: t → p c = false := by
  intro l
  induction l with
  | nil => intro t c h; cases h
  | cons x xs ih =>
    intro t c h
    rw [List.dropWhile_cons] at h
    split at h
    · exact ih h
    · rename_i hx
      obtain ⟨rfl, _⟩ := List.cons.inj h
      exact Bool.of_not_eq_true hx

theorem trimCharList_idem (l : List Char) : trimCharList (trimCharList l) = trimCharList l := by
  set l1 := l.dropWhile jsWsChar with hl1
  set r := l1.reverse.dropWhile jsWsChar with hr
  have hT : trimCharList l = r.reverse := rfl
  have hprefix : r.reverse <+: l1 := by
    have hsuf : r <:+ l1.reverse := List.dropWhile_suffix jsWsChar
    have := List.reverse_prefix.mpr hsuf
    rwa [List.reverse_reverse] at this
  have hdropT : List.dropWhile jsWsChar r.reverse = r.reverse := by
    rcases hTr : r.reverse with _ | ⟨c, t⟩
    · rfl
    · obtain ⟨u, hu⟩ := hprefix
      rw [hTr] at hu
      have hl1c : List.dropWhile jsWsChar l = c :: (t ++ u) := by
        rw [← hl1, ← hu]
        rfl
      have hc : jsWsChar c = false := dropWhile_head_false hl1c
      rw [List.dropWhile_cons, hc]
      simp
  rw [hT, trimCharList, hdropT, List.reverse_reverse, hr, List.dropWhile_idempotent]

theorem jsTrim_idem (s : String) : jsTrim (jsTrim s) = jsTrim s := by
  apply string_ext_toList
  show trimCharList (trimCharList s.toList) = trimCharList s.toList
  exact trimCharList_idem s.toList

theorem skipWs_cons_of_neg {c : Char} (h : jsonWs c = false) (cs : List Char) :
    skipWs (c :: cs) = c :: cs := by
  rw [skipWs, h]
  rfl

/-- A JSON text cannot start with a character that opens no value. -/
theorem parseValue_not_starter (c : Char) (hws : jsonWs c = false) (h1 : c ≠ '{')
    (h2 : c ≠ '[') (h3 : c ≠ '"') (h4 : c ≠ 'n') (h5 : c ≠ 't') (h6 : c ≠ 'f')
    (h7 : ¬(c = '-' ∨ c.isDigit = true)) :
    ∀ (fuel : Nat) (cs : List Char), exceptIsOk (parseValue fuel (c :: cs)) = false := by
  intro fuel cs
  cases fuel with
  | zero => rfl
  | succ f =>
    rw [parseValue, skipWs_cons_of_neg hws]
    dsimp only
    rw [if_neg h1, if_neg h2, if_neg h3, if_neg h4, if_neg h5, if_neg h6, if_neg h7]
    rfl

/-- After `[`, a character that opens no value and is not `]` kills the
parse. -/
theorem parseValue_bracket_bad (c : Char) (hws : jsonWs c = false) (h1 : c ≠ '{')
    (h2 : c ≠ '[') (h3 : c ≠ '"') (h4 : c ≠ 'n') (h5 : c ≠ 't') (h6 : c ≠ 'f')
    (h7 : ¬(c = '-' ∨ c.isDigit = true)) (h8 : c ≠ ']') :
    ∀ (fuel : Nat) (cs : List Char),
      exceptIsOk (parseValue fuel ('[' :: c :: cs)) = false := by
  have harr : ∀ (g : Nat) (cs : List Char),
      exceptIsOk (parseArrayItems g (c :: cs) []) = false := by
    intro g cs
    cases g with
    | zero => rfl
    | succ g' =>
      rw [parseArrayItems]
      rcases hpv : parseValue g' (c :: cs) with e | v
      · rfl
      · have hno := parseValue_not_starter c hws h1 h2 h3 h4 h5 h6 h7 g' cs
        rw [hpv] at hno
        simp [exceptIsOk] at hno
  intro fuel cs
  cases fuel with
  | zero => rfl
  | succ f =>
    rw [parseValue, skipWs_cons_of_neg (by decide)]
    dsimp only
    rw [if_neg (by decide : ¬('[' : Char) = '{'), if_pos rfl]
    cases f with
    | zero => rfl
    | succ g =>
      rw [parseArray, skipWs_cons_of_neg hws]
      have hm : (match c :: cs with
          | ']' :: r => Except.ok (Json.arr [], r)
          | r => parseArrayItems g r []) = parseArrayItems g (c :: cs) [] := by
        split
        · rename_i heq
          obtain ⟨hcc, _⟩ := List.cons.inj heq
          exact absurd hcc h8
        · rfl
      rw [hm, harr]

/-- `JSON.parse` fails whenever the underlying value parse fails for
every fuel. -/
theorem jsonParse_not_ok (s : String)
    (h : ∀ fuel, exceptIsOk (parseValue fuel s.toList) = false) :
    exceptIsOk (jsonParse s) = false := by
  rw [jsonParse]
  rcases hp : parseValue (4 * s.length + 8) s.toList with e | v
  · rfl
  · have hx := h (4 * s.length + 8)
    rw [hp] at hx
    simp [exceptIsOk] at hx

/-- `startsWith` is refuted by a clash on the first character. -/
theorem strStartsWith_false_of_head_ne (t p : String) (c d : Char) (u v : List Char)
    (ht : t.toList = c :: u) (hp : p.toList = d :: v) (hne : d ≠ c) :
    strStartsWith t p = false := by
  rw [strStartsWith]
  cases hb : List.isPrefixOf p.toList t.toList
  · rfl
  · obtain ⟨w, hw⟩ := List.isPrefixOf_iff_prefix.mp hb
    rw [hp, ht] at hw
    obtain ⟨hdc, _⟩ := List.cons.inj hw
    exact absurd hdc hne

/-- A text whose second character (after `[`) opens nothing is not
JSON. -/
theorem bracket_pattern_parse_false (t : String) (c2 : Char) (rest : List Char)
    (ht : t.toList = '[' :: c2 :: rest) (hc : jsonWs c2 = false) (e1 : c2 ≠ '{')
    (e2 : c2 ≠ '[') (e3 : c2 ≠ '"') (e4 : c2 ≠ 'n') (e5 : c2 ≠ 't') (e6 : c2 ≠ 'f')
    (e7 : ¬(c2 = '-' ∨ c2.isDigit = true)) (e8 : c2 ≠ ']') :
    exceptIsOk (jsonParse t) = false :=
  jsonParse_not_ok t (fun fuel => by
    rw [ht]; exact parseValue_bracket_bad c2 hc e1 e2 e3 e4 e5 e6 e7 e8 fuel rest)

/-- A line that begins with `{` or `[` and parses as JSON matches none of
the reject patterns of `isValidJSON`. -/
theorem errorPatternMatch_false_of_frame (t : String)
    (hstart : (strStartsWith t "\x7b" || strStartsWith t "[") = true)
    (hok : exceptIsOk (jsonParse t) = true) :
    errorPatternMatch t = false := by
  rcases Bool.or_eq_true .. |>.mp hstart with hs | hs
  · obtain ⟨u, hu⟩ := List.isPrefixOf_iff_prefix.mp hs
    have ht : t.toList = '{' :: u := by rw [← hu]; rfl
    rw [errorPatternMatch,
      strStartsWith_false_of_head_ne t "[ERROR]" '{' '[' u _ ht rfl (by decide),
      strStartsWith_false_of_head_ne t "[WARN]" '{' '[' u _ ht rfl (by decide),
      strStartsWith_false_of_head_ne t "[INFO]" '{' '[' u _ ht rfl (by decide),
      strStartsWith_false_of_head_ne t "[DEBUG]" '{' '[' u _ ht rfl (by decide),
      strStartsWith_false_of_head_ne t "Error:" '{' 'E' u _ ht rfl (by decide),
      strStartsWith_false_of_head_ne t "Warning:" '{' 'W' u _ ht rfl (by decide),
      strStartsWith_false_of_head_ne t "<!DOCTYPE" '{' '<' u _ ht rfl (by decide),
      strStartsWith_false_of_head_ne t "<html" '{' '<' u _ ht rfl (by decide)]
    rfl
  · obtain ⟨u, hu⟩ := List.isPrefixOf_iff_prefix.mp hs
    have ht : t.toList = '[' :: u := by rw [← hu]; rfl
    have hbracket : ∀ (p : String) (c2 : Char) (v : List Char), p.toList = '[' :: c2 :: v →
        jsonWs c2 = false → c2 ≠ '{' → c2 ≠ '[' → c2 ≠ '"' → c2 ≠ 'n' → c2 ≠ 't' →
        c2 ≠ 'f' → ¬(c2 = '-' ∨ c2.isDigit = true) → c2 ≠ ']' →
        strStartsWith t p = false := by
      intro p c2 v hp hc e1 e2 e3 e4 e5 e6 e7 e8
      cases hb : strStartsWith t p
      · rfl
      · exfalso
        rw [strStartsWith] at hb
        obtain ⟨w, hw⟩ := List.isPrefixOf_iff_prefix.mp hb
        rw [hp] at hw
        have ht2 : t.toList = '[' :: c2 :: (v ++ w) := by
          rw [← hw]; rfl
        have := bracket_pattern_parse_false t c2 (v ++ w) ht2 hc e1 e2 e3 e4 e5 e6 e7 e8
        rw [hok] at this
        cases this
    rw [errorPatternMatch,
      hbracket "[ERROR]" 'E' _ rfl (by decide) (by decide) (by decide) (by decide)
        (by decide) (by decide) (by decide) (by decide) (by decide),
      hbracket "[WARN]" 'W' _ rfl (by decide) (by decide) (by decide) (by decide)
        (by decide) (by decide) (by decide) (by decide) (by decide),
      hbracket "[INFO]" 'I' _ rfl (by decide) (by decide) (by decide) (by decide)
        (by decide) (by decide) (by decide) (by decide) (by decide),
      hbracket "[DEBUG]" 'D' _ rfl (by decide) (by decide) (by decide) (by decide)
        (by decide) (by decide) (by decide) (by decide) (by decide),
      strStartsWith_false_of_head_ne t "Error:" '[' 'E' u _ ht rfl (by decide),
      strStartsWith_false_of_head_ne t "Warning:" '[' 'W' u _ ht rfl (by decide),
      strStartsWith_false_of_head_ne t "<!DOCTYPE" '[' '<' u _ ht rfl (by decide),
      strStartsWith_false_of_head_ne t "<html" '[' '<' u _ ht rfl (by decide)]
    rfl

/-- `isValidJSON` holds of every already-trimmed JSON frame line. -/
theorem isValidJSON_intro (t : String) (h0 : ¬ t = "") (hidem : jsTrim t = t)
    (hstart : (strStartsWith t "\x7b" || strStartsWith t "[") = true)
    (hok : exceptIsOk (jsonParse t) = true) : isValidJSON t = true := by
  rw [isValidJSON, hidem, if_neg h0,
    if_neg (by rw [errorPatternMatch_false_of_frame t hstart hok]; simp),
    if_neg (by rw [hstart]; simp)]
  exact hok

/-- What `isValidJSON` guarantees about an already-trimmed line. -/
theorem isValidJSON_elim (t : String) (hidem : jsTrim t = t)
    (hv : isValidJSON t = true) :
    (strStartsWith t "\x7b" || strStartsWith t "[") = true
    ∧ exceptIsOk (jsonParse t) = true := by
  rw [isValidJSON, hidem] at hv
  split at hv
  · cases hv
  · split at hv
    · cases hv
    · dsimp only at hv
      split at hv
      · cases hv
      · rename_i hns
        exact ⟨of_not_not (by simpa using hns), hv⟩

/-- C4.  A complete stdout line is dispatched to a pending continuation
iff, after trimming, it starts with `{` or `[`, parses as JSON, and
carries a numeric `id` present in the pending table; every other line —
the `[ERROR]`/`[WARN]`/`[INFO]`/`[DEBUG]`/`Error:`/`Warning:`/
`<!DOCTYPE`/`<html` prefixes and empty lines included — is discarded
without touching the table, and a dispatch removes exactly the matched
id. -/
theorem c4_frame_dispatch_iff (line : String) (pending : List Int)
    (hpos : ∀ i ∈ pending, 0 < i) :
    ((processLine pending line).2.isSome = true ↔
      ((strStartsWith (jsTrim line) "\x7b" || strStartsWith (jsTrim line) "[") = true
        ∧ ∃ j n, jsonParse (jsTrim line) = .ok j ∧ objId j = some (.num n) ∧ n ∈ pending))
    ∧ ((processLine pending line).2 = none → (processLine pending line).1 = pending)
    ∧ (∀ n msg, (processLine pending line).2 = some (n, msg) →
        (processLine pending line).1 = pending.erase n ∧ n ∈ pending
        ∧ jsonParse (jsTrim line) = .ok msg ∧ objId msg = some (.num n)) := by
  by_cases h0 : jsTrim line = ""
  · have hout : processLine pending line = (pending, none) := by
      rw [processLine, if_pos h0]
    refine ⟨?_, fun _ => by rw [hout], fun n msg hmsg => ?_⟩
    · rw [hout]
      constructor
      · intro h; cases h
      · rintro ⟨hstart, -⟩
        rw [h0] at hstart
        exact absurd hstart (by decide)
    · rw [hout] at hmsg
      cases hmsg
  · have hidem : jsTrim (jsTrim line) = jsTrim line := jsTrim_idem line
    by_cases hv : isValidJSON (jsTrim line) = true
    · obtain ⟨hstart, hok⟩ := isValidJSON_elim (jsTrim line) hidem hv
      rcases hparse : jsonParse (jsTrim line) with e | msg
      · rw [hparse] at hok
        cases hok
      · have hpre : processLine pending line =
            (match objId msg with
             | some idVal =>
               if jsTruthy idVal then
                 match idVal with
                 | .num n =>
                   if n ∈ pending then (pending.erase n, some (n, msg)) else (pending, none)
                 | _ => (pending, none)
               else (pending, none)
             | none => (pending, none)) := by
          rw [processLine, if_neg h0, if_neg (not_not_intro hv), hparse]
        rcases hobj : objId msg with _ | idv
        · have hout : processLine pending line = (pending, none) := by
            rw [hpre, hobj]
          refine ⟨?_, fun _ => by rw [hout], fun n m hmsg => ?_⟩
          · rw [hout]
            constructor
            · intro h; cases h
            · rintro ⟨-, j, n, hparse', hobj', -⟩
              obtain rfl := (Except.ok.inj hparse')
              rw [hobj] at hobj'
              cases hobj'
          · rw [hout] at hmsg
            cases hmsg
        · rcases htr : jsTruthy idv with _ | _
          · have hout : processLine pending line = (pending, none) := by
              rw [hpre, hobj]
              dsimp only
              rw [if_neg (by rw [htr]; simp)]
            refine ⟨?_, fun _ => by rw [hout], fun n m hmsg => ?_⟩
            · rw [hout]
              constructor
              · intro h; cases h
              · rintro ⟨-, j, n, hparse', hobj', hmem⟩
                obtain rfl := (Except.ok.inj hparse')
                rw [hobj] at hobj'
                obtain rfl := (Option.some.inj hobj')
                have hn0 : n = 0 := by simpa [jsTruthy] using htr
                have := hpos n hmem
                omega
            · rw [hout] at hmsg
              cases hmsg
          · rcases idv with _ | b | n | s | xs | fs
            pick_goal 3
            ·
              by_cases hmem : n ∈ pending
              · have hout : processLine pending line =
                    (pending.erase n, some (n, msg)) := by
                  rw [hpre, hobj]
                  dsimp only
                  rw [if_pos (by rw [htr])]
                  rw [if_pos hmem]
                refine ⟨?_, fun habs => ?_, fun n' m' hmsg => ?_⟩
                · rw [hout]
                  constructor
                  · intro _
                    exact ⟨hstart, msg, n, rfl, hobj, hmem⟩
                  · intro _; rfl
                · rw [hout] at habs
                  cases habs
                · rw [hout] at hmsg
                  obtain ⟨rfl, rfl⟩ := Prod.mk.inj (Option.some.inj hmsg)
                  exact ⟨by rw [hout], hmem, rfl, hobj⟩
              · have hout : processLine pending line = (pending, none) := by
                  rw [hpre, hobj]
                  dsimp only
                  rw [if_pos (by rw [htr])]
                  rw [if_neg hmem]
                refine ⟨?_, fun _ => by rw [hout], fun n' m' hmsg => ?_⟩
                · rw [hout]
                  constructor
                  · intro h; cases h
                  · rintro ⟨-, j, n', hparse', hobj', hmem'⟩
                    obtain rfl := (Except.ok.inj hparse')
                    rw [hobj] at hobj'
                    obtain heq := Option.some.inj hobj'
                    cases heq
                    exact absurd hmem' hmem
                · rw [hout] at hmsg
                  cases hmsg
            all_goals {
              have hout : processLine pending line = (pending, none) := by
                rw [hpre, hobj]
                dsimp only
                rw [if_pos (by rw [htr])]
              refine ⟨?_, fun _ => by rw [hout], fun n' m' hmsg => ?_⟩
              · rw [hout]
                constructor
                · intro h; cases h
                · rintro ⟨-, j, n', hparse', hobj', -⟩
                  obtain rfl := (Except.ok.inj hparse')
                  rw [hobj] at hobj'
                  cases Option.some.inj hobj'
              · rw [hout] at hmsg
                cases hmsg }
    · have hout : processLine pending line = (pending, none) := by
        rw [processLine, if_neg h0, if_pos (by simp [hv])]
      refine ⟨?_, fun _ => by rw [hout], fun n m hmsg => ?_⟩
      · rw [hout]
        constructor
        · intro h; cases h
        · rintro ⟨hstart, j, n, hparse', -, -⟩
          exact absurd (isValidJSON_intro (jsTrim line) h0 hidem hstart
            (by rw [hparse']; rfl)) hv
      · rw [hout] at hmsg
        cases hmsg

/-- Witness for C4: a well-formed response line for pending id 3 is
dispatched. -/
theorem c4_frame_dispatch_witness :
    (processLine [3] " \x7b\"id\":3,\"result\":\x7b\x7d\x7d ").2.isSome = true :=
  ((c4_frame_dispatch_iff " \x7b\"id\":3,\"result\":\x7b\x7d\x7d " [3] (by decide)).1).mpr
    ⟨by decide, Json.obj [("id", Json.num 3), ("result", Json.obj [])], 3, rfl, rfl,
      by decide⟩

end McpChainer
